import Mathlib

/-!
# Verification of the AKD append-only zero-knowledge set core

A shallow embedding, in Lean 4, of the core of the `novifinancial/akd`
repository:

* `history_tree_node.rs` — the compressed Merkle-patricia trie node with
  per-epoch history states (`insert_single_leaf_helper`, `update_hash`,
  `set_child_without_hash`, the effective-epoch lookups, …);
* `auditor.rs` — `audit_verify` and `verify_consecutive_append_only`;
* `akd_quorum/crypto.rs` — `generate_shards` / `reconstruct_shards`.

Rust `Result` values are embedded in the `Res` monad below, which also has a
`crash` outcome modelling a Rust panic (out-of-bounds indexing, checked
integer overflow).  Machine-integer subtleties are modelled explicitly where
they matter (`usize` subtraction in `audit_verify`, `u8` arithmetic in
`generate_shards`); everything else uses `Nat`.

Parts of the repository that the embedded code calls but whose sources are
not available (`node_state.rs`, `azks.rs`, the `shamirsecretsharing` crate)
are modelled from the specification; each such definition carries a doc
comment starting with `Modelled from the spec:`.
-/

set_option autoImplicit false

namespace Akd

/-- Outcome of running a piece of embedded Rust code: `ok` (the `Ok` arm of a
`Result`), `err` (the `Err` arm), or `crash`, which models a Rust panic
(index out of bounds, arithmetic overflow) or divergence. -/
inductive Res (ε α : Type) where
  | ok : α → Res ε α
  | err : ε → Res ε α
  | crash : Res ε α
  deriving DecidableEq, Repr

namespace Res

def bind {ε α β : Type} : Res ε α → (α → Res ε β) → Res ε β
  | ok a, f => f a
  | err e, _ => err e
  | crash, _ => crash

def map {ε α β : Type} (f : α → β) : Res ε α → Res ε β
  | ok a => ok (f a)
  | err e => err e
  | crash => crash

instance (ε : Type) : Monad (Res ε) where
  pure := Res.ok
  bind := Res.bind
  map := Res.map

@[simp] theorem bind_ok {ε α β : Type} (a : α) (f : α → Res ε β) :
    Res.bind (Res.ok a) f = f a := rfl

@[simp] theorem bind_err {ε α β : Type} (e : ε) (f : α → Res ε β) :
    Res.bind (Res.err e) f = Res.err e := rfl

@[simp] theorem bind_crash {ε α β : Type} (f : α → Res ε β) :
    Res.bind (Res.crash : Res ε α) f = Res.crash := rfl

@[simp] theorem pure_eq {ε α : Type} (a : α) : (pure a : Res ε α) = Res.ok a := rfl

@[simp] theorem monad_bind_eq {ε α β : Type} (x : Res ε α) (f : α → Res ε β) :
    (x >>= f) = Res.bind x f := rfl

theorem bind_eq_ok {ε α β : Type} {x : Res ε α} {f : α → Res ε β} {b : β}
    (h : Res.bind x f = Res.ok b) : ∃ a, x = Res.ok a ∧ f a = Res.ok b := by
  cases x with
  | ok a => exact ⟨a, rfl, h⟩
  | err e => simp [Res.bind] at h
  | crash => simp [Res.bind] at h

end Res

/-- Association-list store (used for both the per-`(label, epoch)` state map
and the `location → node` records; mirrors the repository's key→record
storage and the `HashMap` changeset, with insert-at-front overwrite
semantics). -/
def alookup {α β : Type} [DecidableEq α] : List (α × β) → α → Option β
  | [], _ => none
  | (k, v) :: t, a => if a = k then some v else alookup t a

def aset {α β : Type} (m : List (α × β)) (k : α) (v : β) : List (α × β) :=
  (k, v) :: m

@[simp] theorem alookup_nil {α β : Type} [DecidableEq α] (a : α) :
    alookup ([] : List (α × β)) a = none := rfl

@[simp] theorem alookup_aset_same {α β : Type} [DecidableEq α]
    (m : List (α × β)) (k : α) (v : β) : alookup (aset m k v) k = some v := by
  simp [aset, alookup]

@[simp] theorem alookup_aset_ne {α β : Type} [DecidableEq α]
    (m : List (α × β)) (k k' : α) (v : β) (h : k' ≠ k) :
    alookup (aset m k v) k' = alookup m k' := by
  simp [aset, alookup, h]

/-! ## NodeLabel (modelled from the spec — `node_state.rs` is not in src) -/

/-- Modelled from the spec: `node_state.rs` (which defines `NodeLabel`) is not
among the provided sources.  Per §3 of the spec, a `NodeLabel` is a pair
`(value, length)` denoting the first `length` bits of `value`,
most-significant-bit first; two labels are equal iff both components match. -/
structure NodeLabel where
  val : Nat
  len : Nat
  deriving DecidableEq, Repr

/-- A `Direction` is "none" or a child index in `{0, …, ARITY-1}`, `ARITY = 2`. -/
abbrev Direction := Option Nat

def ARITY : Nat := 2

namespace NodeLabel

/-- Modelled from the spec: bit `i` of a label (MSB-first within `len`). -/
def getBitAt (l : NodeLabel) (i : Nat) : Nat :=
  (l.val >>> (l.len - i - 1)) % 2

/-- Modelled from the spec: the label consisting of the first `k` bits. -/
def prefixAt (l : NodeLabel) (k : Nat) : NodeLabel :=
  ⟨l.val >>> (l.len - k), k⟩

/-- Modelled from the spec: number of leading bits (MSB-first) on which the
two labels agree, up to `min` of the lengths. -/
def lcpLenAux (a b : NodeLabel) : Nat → Nat → Nat
  | i, 0 => i
  | i, fuel + 1 =>
    if i < min a.len b.len ∧ a.getBitAt i = b.getBitAt i then
      lcpLenAux a b (i + 1) fuel
    else i

def lcpLen (a b : NodeLabel) : Nat :=
  lcpLenAux a b 0 (min a.len b.len)

/-- Modelled from the spec: the direction the label `other` takes at the first
bit after the common prefix `lcp`; `none` when `lcp` is not a proper prefix
of `other` (§4.1: "If one label is a prefix of the other, the shorter label's
direction is `none`"). -/
def dirAfter (lcp other : NodeLabel) : Direction :=
  if lcp.len ≥ other.len then none
  else if other.prefixAt lcp.len ≠ lcp then none
  else some (other.getBitAt lcp.len)

/-- Modelled from the spec, §4.1: `get_longest_common_prefix_and_dirs(other)`
returns `(lcp_label, dir_other, dir_self)`: the LCP as a `NodeLabel` and the
direction taken by each label at the first differing bit (`none` for a label
that equals the LCP). -/
def get_longest_common_prefix_and_dirs (self other : NodeLabel) :
    NodeLabel × Direction × Direction :=
  let lcp := self.prefixAt (lcpLen self other)
  (lcp, dirAfter lcp other, dirAfter lcp self)

end NodeLabel

/-! ## Hasher capability (abstract, per spec §4.5) -/

/-- The abstract `Hasher` capability of spec §4.5, together with the two
sentinel digests used by `node_state.rs` (which is not in src):
`dummyHashVal` is the well-known sentinel stored in a `Dummy` child pointer
(spec §3), and `newStateValue` is the initial `value` of a fresh
`HistoryNodeState`. -/
structure AkdHasher (D : Type) where
  hashEmpty : D
  merge : D → D → D
  mergeWithInt : D → Nat → D
  hashLabel : NodeLabel → D
  dummyHashVal : D
  newStateValue : D

/-! ## Node data model (`history_tree_node.rs` and spec §3) -/

inductive NodeType where
  | Leaf
  | Root
  | Interior
  deriving DecidableEq, Repr

inductive DummyChildState where
  | Dummy
  | Real
  deriving DecidableEq, Repr

/-- `HistoryChildState` from spec §3 (`node_state.rs` is not in src):
per-direction child pointer stored inside a parent's state at a given epoch.
Digests are stored directly (the source's `from_digest`/`to_digest`
serialization round-trip is modelled as the identity). -/
structure HistoryChildState (D : Type) where
  dummy_marker : DummyChildState
  location : Nat
  label : NodeLabel
  hash_val : D
  epoch_version : Nat
  deriving DecidableEq, Repr

/-- `HistoryNodeState` from spec §3: the node's digest at this epoch plus one
child pointer per direction (`ARITY = 2`, so the `[HistoryChildState; ARITY]`
array is embedded as two fields; all reachable direction indices are bits). -/
structure HistoryNodeState (D : Type) where
  value : D
  child0 : HistoryChildState D
  child1 : HistoryChildState D
  deriving DecidableEq, Repr

/-- `state.get_child_state_in_dir(dir)` for `dir ∈ {0, 1}`. -/
def HistoryNodeState.get_child_state_in_dir {D : Type}
    (s : HistoryNodeState D) (dir : Nat) : HistoryChildState D :=
  if dir = 0 then s.child0 else s.child1

/-- `state.child_states[dir] = c` for `dir ∈ {0, 1}`. -/
def HistoryNodeState.setChild {D : Type}
    (s : HistoryNodeState D) (dir : Nat) (c : HistoryChildState D) :
    HistoryNodeState D :=
  if dir = 0 then { s with child0 := c } else { s with child1 := c }

/-- Modelled from the spec: `HistoryChildState::new_dummy()` — a `Dummy`
pointer whose hash is the well-known sentinel (spec §3). -/
def dummyChild {D : Type} (H : AkdHasher D) : HistoryChildState D :=
  { dummy_marker := .Dummy
    location := 0
    label := ⟨0, 0⟩
    hash_val := H.dummyHashVal
    epoch_version := 0 }

/-- Modelled from the spec: `HistoryNodeState::new()` — the fresh state with
two dummy children. -/
def HistoryNodeState.fresh {D : Type} (H : AkdHasher D) : HistoryNodeState D :=
  { value := H.newStateValue, child0 := dummyChild H, child1 := dummyChild H }

/-- `HistoryTreeNode` from `history_tree_node.rs` (the single-AZKS `azks_id`
tag is dropped; all keys below are within one AZKS). -/
structure HistoryTreeNode (D : Type) where
  label : NodeLabel
  location : Nat
  epochs : List Nat
  parent : Nat
  node_type : NodeType
  deriving DecidableEq, Repr

/-- `HistoryTreeNode::new` (epochs start empty). -/
def HistoryTreeNode.new (D : Type) (label : NodeLabel) (location : Nat)
    (parent : Nat) (node_type : NodeType) : HistoryTreeNode D :=
  { label := label, location := location, epochs := [], parent := parent
    node_type := node_type }

def HistoryTreeNode.is_root {D : Type} (n : HistoryTreeNode D) : Bool :=
  n.node_type = NodeType.Root

def HistoryTreeNode.is_leaf {D : Type} (n : HistoryTreeNode D) : Bool :=
  n.node_type = NodeType.Leaf

/-- The persistent storage visible to the node algorithms: node records keyed
by location (`NodeKey`) and per-`(label, epoch)` node states
(`NodeStateKey`).  `set_state_map`/`get_state_map` in the source write and
read the state records directly. -/
structure Store (D : Type) where
  nodes : List (Nat × HistoryTreeNode D)
  states : List ((NodeLabel × Nat) × HistoryNodeState D)
  deriving DecidableEq, Repr

/-- The in-memory changeset `HashMap<usize, HistoryTreeNode>`. -/
abbrev Changeset (D : Type) := List (Nat × HistoryTreeNode D)

/-- Errors of `errors.rs` that the embedded code can produce (including the
variants used by `history_tree_node.rs`); `StorageNotFound` stands for the
storage layer's retrieval failure. -/
inductive HTErr where
  | NoDirectionInSettingChild (nodeLabel childLabel : Nat)
  | DirectionIsNone
  | NoChildInTreeAtEpoch (epoch : Nat) (dir : Nat)
  | ParentNextEpochInvalid (epoch : Nat)
  | HashUpdateOnlyAllowedAfterNodeInsertion
  | NodeCreatedWithoutEpochs (label : Nat)
  | CompressionError (label : NodeLabel)
  | NodeDidNotExistAtEp (label : NodeLabel) (epoch : Nat)
  | NodeDidNotHaveExistingStateAtEp (label : NodeLabel) (epoch : Nat)
  | StorageNotFound
  deriving DecidableEq, Repr

variable {D : Type}

/-! ## Embedded operations of `history_tree_node.rs` -/

/-- `get_state_map(node, &key)`: retrieve the `HistoryNodeState` stored under
`NodeStateKey(label, epoch)`. -/
def get_state_map [DecidableEq D] (n : HistoryTreeNode D) (epoch : Nat)
    (st : Store D) : Res HTErr (HistoryNodeState D) :=
  match alookup st.states (n.label, epoch) with
  | some s => .ok s
  | none => .err .StorageNotFound

/-- `set_state_map(node, &key, val)`: store a state under
`NodeStateKey(label, epoch)` (the in-memory store never fails). -/
def set_state_map [DecidableEq D] (n : HistoryTreeNode D) (epoch : Nat)
    (v : HistoryNodeState D) (st : Store D) : Store D :=
  { st with states := aset st.states (n.label, epoch) v }

/-- `tree_repr_get`: read a node from the changeset, falling back to storage
(and caching the result in the changeset). -/
def tree_repr_get [DecidableEq D] (st : Store D) (cs : Changeset D)
    (location : Nat) : Res HTErr (HistoryTreeNode D × Changeset D) :=
  match alookup cs location with
  | some n => .ok (n, cs)
  | none =>
    match alookup st.nodes location with
    | some n => .ok (n, aset cs location n)
    | none => .err .StorageNotFound

/-- `tree_repr_set`: write a node into the changeset. -/
def tree_repr_set (cs : Changeset D) (location : Nat)
    (n : HistoryTreeNode D) : Changeset D :=
  aset cs location n

/-- `get_birth_epoch`: `self.epochs[0]` — unconditional indexing, so a node
with no epochs makes it panic (`crash`). -/
def get_birth_epoch (n : HistoryTreeNode D) : Res HTErr Nat :=
  match n.epochs with
  | [] => .crash
  | e :: _ => .ok e

/-- `get_latest_epoch`: last stored epoch, or the `NodeCreatedWithoutEpochs`
error on a node with no epochs. -/
def get_latest_epoch (n : HistoryTreeNode D) : Res HTErr Nat :=
  match n.epochs.getLast? with
  | none => .err (.NodeCreatedWithoutEpochs n.label.val)
  | some e => .ok e

/-- The `chosen_ep` loop shared by `get_state_at_epoch` and
`get_child_at_epoch`: starting from the birth epoch, take each stored epoch
that is `≤ epoch` (the last such in list order wins). -/
def chosenEp (epochs : List Nat) (birth epoch : Nat) : Nat :=
  epochs.foldl (fun acc ep => if ep ≤ epoch then ep else acc) birth

/-- `get_state_at_existing_epoch`. -/
def get_state_at_existing_epoch [DecidableEq D] (n : HistoryTreeNode D)
    (epoch : Nat) (st : Store D) : Res HTErr (HistoryNodeState D) :=
  match alookup st.states (n.label, epoch) with
  | some s => .ok s
  | none => .err (.NodeDidNotHaveExistingStateAtEp n.label epoch)

/-- `get_state_at_epoch`. -/
def get_state_at_epoch [DecidableEq D] (n : HistoryTreeNode D) (epoch : Nat)
    (st : Store D) : Res HTErr (HistoryNodeState D) :=
  Res.bind (get_birth_epoch n) fun birth =>
    if birth > epoch then .err (.NodeDidNotExistAtEp n.label epoch)
    else get_state_at_existing_epoch n (chosenEp n.epochs birth epoch) st

/-- `get_child_at_existing_epoch`. -/
def get_child_at_existing_epoch [DecidableEq D] (n : HistoryTreeNode D)
    (epoch : Nat) (direction : Direction) (st : Store D) :
    Res HTErr (HistoryChildState D) :=
  match direction with
  | none => .err .DirectionIsNone
  | some dir =>
    Res.map (fun s => s.get_child_state_in_dir dir) (get_state_map n epoch st)

/-- `get_child_at_epoch`. -/
def get_child_at_epoch [DecidableEq D] (n : HistoryTreeNode D) (epoch : Nat)
    (direction : Direction) (st : Store D) : Res HTErr (HistoryChildState D) :=
  match direction with
  | none => .err .DirectionIsNone
  | some dir =>
    Res.bind (get_birth_epoch n) fun birth =>
      if birth > epoch then .err (.NoChildInTreeAtEpoch epoch dir)
      else get_child_at_existing_epoch n (chosenEp n.epochs birth epoch)
        (some dir) st

/-- `get_value`: the node's stored digest at its latest epoch. -/
def get_value [DecidableEq D] (n : HistoryTreeNode D) (st : Store D) :
    Res HTErr D :=
  Res.bind (get_latest_epoch n) fun le =>
    Res.map (fun s => s.value) (get_state_map n le st)

/-- `to_node_unhashed_child_state`: package a node as a child pointer; the
stored `hash_val` is the label-folded `H.merge(value, hash_label(label))`. -/
def to_node_unhashed_child_state [DecidableEq D] (H : AkdHasher D)
    (n : HistoryTreeNode D) (st : Store D) : Res HTErr (HistoryChildState D) :=
  Res.bind (get_value n st) fun v =>
    Res.bind (get_latest_epoch n) fun le =>
      .ok { dummy_marker := .Real
            location := n.location
            label := n.label
            hash_val := H.merge v (H.hashLabel n.label)
            epoch_version := le }

/-- `get_direction_at_ep`: direction of `other` in `n`'s effective state at
`ep` ( `Ok(None)` when `other`'s label is at neither child). -/
def get_direction_at_ep [DecidableEq D] (n other : HistoryTreeNode D)
    (ep : Nat) (st : Store D) : Res HTErr Direction :=
  Res.bind (get_state_at_epoch n ep st) fun s =>
    .ok ((List.range ARITY).foldl
      (fun acc i =>
        if (s.get_child_state_in_dir i).label = other.label then some i
        else acc)
      none)

/-- `get_empty_root`. -/
def get_empty_root [DecidableEq D] (H : AkdHasher D) (ep : Option Nat)
    (st : Store D) : HistoryTreeNode D × Store D :=
  let node := HistoryTreeNode.new D ⟨0, 0⟩ 0 0 NodeType.Root
  match ep with
  | none => (node, st)
  | some epoch =>
    let node := { node with epochs := node.epochs ++ [epoch] }
    (node, set_state_map node epoch (HistoryNodeState.fresh H) st)

/-- `get_leaf_node_without_hashing`: a fresh leaf whose state at its birth
epoch stores `value` directly (no hashing applied). -/
def get_leaf_node_without_hashing [DecidableEq D] (label : NodeLabel)
    (location : Nat) (value : D) (parent : Nat) (birth_epoch : Nat)
    (H : AkdHasher D) (st : Store D) : HistoryTreeNode D × Store D :=
  let node : HistoryTreeNode D :=
    { label := label, location := location, epochs := [birth_epoch]
      parent := parent, node_type := NodeType.Leaf }
  let state := { HistoryNodeState.fresh H with value := value }
  (node, set_state_map node birth_epoch state st)

/-- `set_child_without_hash`: write `child_states[dir] = child` in the state
at `epoch`, materializing that state first (from the latest state, or a fresh
one) if it does not exist yet — pushing `epoch` onto `epochs` only when it
differs from the current latest epoch.  The source implements the retry as a
recursive call; after the state at `(label, epoch)` has just been stored the
retry's `get_state_map` necessarily succeeds, so the retry is inlined here
(the impossible miss arm is `crash`, as the source would retry forever). -/
def set_child_without_hash [DecidableEq D] (H : AkdHasher D)
    (n : HistoryTreeNode D) (epoch : Nat)
    (child : Direction × HistoryChildState D) (st : Store D)
    (cs : Changeset D) :
    Res HTErr (HistoryTreeNode D × Store D × Changeset D) :=
  match child.1 with
  | some dir =>
    match get_state_map n epoch st with
    | .ok s =>
      .ok (n, set_state_map n epoch (s.setChild dir child.2) st, cs)
    | .crash => .crash
    | .err _ =>
      Res.bind (get_latest_epoch n) fun latest0 =>
      Res.bind
        (match get_state_at_epoch n latest0 st with
         | .ok latest_st => .ok latest_st
         | .err _ => .ok (HistoryNodeState.fresh H)
         | .crash => .crash) fun base =>
      let st1 := set_state_map n epoch base st
      let n' :=
        match get_latest_epoch n with
        | .ok latest =>
          if latest ≠ epoch then { n with epochs := n.epochs ++ [epoch] }
          else n
        | _ => { n with epochs := n.epochs ++ [epoch] }
      let cs1 := tree_repr_set cs n'.location n'
      match get_state_map n' epoch st1 with
      | .ok s =>
        .ok (n', set_state_map n' epoch (s.setChild dir child.2) st1, cs1)
      | _ => .crash
  | none =>
    .err (.NoDirectionInSettingChild n.label.val child.2.label.val)

/-- `set_node_child_without_hash`: package `child` as an (unhashed) child
state and store it at direction `dir`. -/
def set_node_child_without_hash [DecidableEq D] (H : AkdHasher D)
    (n : HistoryTreeNode D) (epoch : Nat) (dir : Direction)
    (child : HistoryTreeNode D) (st : Store D) (cs : Changeset D) :
    Res HTErr (HistoryTreeNode D × Store D × Changeset D) :=
  Res.bind (to_node_unhashed_child_state H child st) fun cstate =>
    set_child_without_hash H n epoch (dir, cstate) st cs

/-- `hash_node`: fold the two child hashes onto `H.hash(∅)`. -/
def hash_node [DecidableEq D] (H : AkdHasher D) (n : HistoryTreeNode D)
    (epoch : Nat) (st : Store D) : Res HTErr D :=
  Res.bind (get_state_at_epoch n epoch st) fun s =>
    .ok ((List.range ARITY).foldl
      (fun acc i => H.merge acc (s.get_child_state_in_dir i).hash_val)
      H.hashEmpty)

/-- `update_hash_at_parent`: write `new_hash_val` into the child slot for `n`
inside its parent's state at `epoch` (materializing that state first via
`set_node_child_without_hash` when the parent's latest epoch predates
`epoch`). -/
def update_hash_at_parent [DecidableEq D] (H : AkdHasher D)
    (n : HistoryTreeNode D) (epoch : Nat) (new_hash_val : D) (st : Store D)
    (cs : Changeset D) : Res HTErr (Store D × Changeset D) :=
  if n.is_root then .ok (st, cs)
  else
    Res.bind (tree_repr_get st cs n.parent) fun pc =>
    Res.bind (get_latest_epoch pc.1) fun ple =>
    Res.bind
      (if ple < epoch then
         let dirs := pc.1.label.get_longest_common_prefix_and_dirs n.label
         Res.bind (set_node_child_without_hash H pc.1 epoch dirs.2.1 n st pc.2)
           fun r =>
           let cs2 := tree_repr_set r.2.2 n.parent r.1
           Res.bind (tree_repr_get r.2.1 cs2 n.parent) fun pc2 =>
             .ok (pc2.1, r.2.1, pc2.2)
       else .ok (pc.1, st, pc.2)) fun q =>
    match get_state_map q.1 epoch q.2.1 with
    | .err _ => .err (.ParentNextEpochInvalid epoch)
    | .crash => .crash
    | .ok parent_state =>
      Res.bind (get_direction_at_ep q.1 n epoch q.2.1) fun d =>
      match d with
      | none => .err .HashUpdateOnlyAllowedAfterNodeInsertion
      | some s_dir =>
        let self_child_state := parent_state.get_child_state_in_dir s_dir
        let updated := parent_state.setChild s_dir
          { self_child_state with hash_val := new_hash_val }
        let st3 := set_state_map q.1 epoch updated q.2.1
        let cs3 := tree_repr_set q.2.2 n.parent q.1
        .ok (st3, cs3)

/-- `update_hash`: recompute this node's hash at `epoch` and propagate it
into the parent's child slot.  A leaf contributes
`H.merge(value, hash_label(label))`; an interior node stores its children
fold as its state `value` (the root additionally label-folds it) and passes
the label-folded product to the parent. -/
def update_hash [DecidableEq D] (H : AkdHasher D) (n : HistoryTreeNode D)
    (epoch : Nat) (st : Store D) (cs : Changeset D) :
    Res HTErr (Store D × Changeset D) :=
  match n.node_type with
  | .Leaf =>
    Res.bind (get_value n st) fun v =>
      update_hash_at_parent H n epoch (H.merge v (H.hashLabel n.label)) st cs
  | _ =>
    Res.bind (hash_node H n epoch st) fun hd0 =>
    let hash_digest := if n.is_root then H.merge hd0 (H.hashLabel n.label)
      else hd0
    Res.bind (get_state_at_epoch n epoch st) fun epoch_state =>
    let updated_state := { epoch_state with value := hash_digest }
    let st1 := set_state_map n epoch updated_state st
    let cs1 := tree_repr_set cs n.location n
    update_hash_at_parent H n epoch (H.merge hash_digest (H.hashLabel n.label))
      st1 cs1

/-- The type of the recursive insertion continuation: arguments are `self`,
`new_leaf`, `epoch`, `num_nodes`, storage, changeset and the `hashing` flag;
the result is the updated `self`, `num_nodes`, storage and changeset. -/
abbrev InsertFn (D : Type) :=
  HistoryTreeNode D → HistoryTreeNode D → Nat → Nat → Store D →
    Changeset D → Bool →
    Res HTErr (HistoryTreeNode D × Nat × Store D × Changeset D)

/-- The `match dir_self` body of `insert_single_leaf_helper` (split case and
descent case), with the recursive occurrence abstracted as `rec`. -/
def insert_cases [DecidableEq D] (H : AkdHasher D) (rec : InsertFn D)
    (self new_leaf : HistoryTreeNode D)
    (lcs_label : NodeLabel) (dir_leaf dir_self : Direction)
    (epoch num_nodes : Nat) (st : Store D) (cs : Changeset D)
    (hashing : Bool) :
    Res HTErr (HistoryTreeNode D × Nat × Store D × Changeset D) :=
  match dir_self with
  | some _ =>
    -- split case: push `self` down and replace it with a new interior node
    -- labelled by the longest common prefix
    Res.bind (tree_repr_get st cs self.parent) fun pc =>
    Res.bind (get_direction_at_ep pc.1 self epoch st) fun self_dir_in_parent =>
    let new_node_location := num_nodes
    let new_node0 :=
      HistoryTreeNode.new D lcs_label new_node_location pc.1.location
        NodeType.Interior
    let new_node := { new_node0 with epochs := new_node0.epochs ++ [epoch] }
    let cs2 := tree_repr_set pc.2 new_node_location new_node
    let nn := num_nodes + 1
    let leaf2 := { new_leaf with parent := new_node.location }
    let cs3 := tree_repr_set cs2 leaf2.location leaf2
    let self2 := { self with parent := new_node.location }
    let cs4 := tree_repr_set cs3 self2.location self2
    Res.bind (set_node_child_without_hash H new_node epoch dir_leaf leaf2 st cs4)
      fun r1 =>
    Res.bind (set_node_child_without_hash H r1.1 epoch dir_self self2 r1.2.1 r1.2.2)
      fun r2 =>
    Res.bind
      (set_node_child_without_hash H pc.1 epoch self_dir_in_parent r2.1 r2.2.1 r2.2.2)
      fun r3 =>
    Res.bind
      (if hashing then
         Res.bind (update_hash H leaf2 epoch r3.2.1 r3.2.2) fun u1 =>
         Res.bind (update_hash H self2 epoch u1.1 u1.2) fun u2 =>
         Res.bind (tree_repr_get u2.1 u2.2 r2.1.location) fun nc =>
         Res.bind (update_hash H nc.1 epoch u2.1 nc.2) fun u3 =>
           .ok (u3.1, u3.2, nc.1)
       else .ok (r3.2.1, r3.2.2, r2.1)) fun q =>
    let cs8 := tree_repr_set q.2.1 new_node_location q.2.2
    let cs9 := tree_repr_set cs8 r3.1.location r3.1
    Res.bind (tree_repr_get q.1 cs9 self2.location) fun sf =>
      .ok (sf.1, nn, q.1, sf.2)
  | none =>
    -- descent case: `self` is the longest common prefix
    Res.bind (get_latest_epoch self) fun le =>
    Res.bind (get_child_at_epoch self le dir_leaf st) fun child_st =>
    match child_st.dummy_marker with
    | .Dummy => .err (.CompressionError self.label)
    | .Real =>
      Res.bind (tree_repr_get st cs child_st.location) fun cc =>
      Res.bind (rec cc.1 new_leaf epoch num_nodes st cc.2 hashing) fun r =>
      Res.bind
        (if hashing then
           Res.bind (tree_repr_get r.2.2.1 r.2.2.2 self.location) fun sc =>
           Res.bind (update_hash H sc.1 epoch r.2.2.1 sc.2) fun u =>
             .ok (u.1, tree_repr_set u.2 sc.1.location sc.1)
         else .ok (r.2.2.1, r.2.2.2)) fun q =>
      Res.bind (tree_repr_get q.1 q.2 self.location) fun sf =>
        .ok (sf.1, r.2.1, q.1, sf.2)

/-- `insert_single_leaf_helper`: the central insertion algorithm.  `fuel`
bounds the recursion depth (the Rust recursion is bounded by the tree height;
exhausting the fuel models divergence on a malformed cyclic store and is
reported as `crash`). -/
def insert_single_leaf_helper [DecidableEq D] (H : AkdHasher D) :
    Nat → HistoryTreeNode D → HistoryTreeNode D → Nat → Nat → Store D →
      Changeset D → Bool →
      Res HTErr (HistoryTreeNode D × Nat × Store D × Changeset D)
  | 0, _, _, _, _, _, _, _ => .crash
  | fuel + 1, self0, new_leaf0, epoch, num_nodes0, st0, cs0, hashing =>
    let dirs := self0.label.get_longest_common_prefix_and_dirs new_leaf0.label
    if self0.is_root then
      -- root special case prelude: reserve the next location for the leaf
      let leaf1 := { new_leaf0 with location := num_nodes0 }
      let cs1 := tree_repr_set cs0 num_nodes0 leaf1
      let nn := num_nodes0 + 1
      Res.bind (get_latest_epoch self0) fun le =>
      Res.bind (get_child_at_epoch self0 le dirs.2.1 st0) fun child_state =>
      if child_state.dummy_marker = .Dummy then
        let leaf2 := { leaf1 with parent := self0.location }
        Res.bind (set_node_child_without_hash H self0 epoch dirs.2.1 leaf2 st0 cs1)
          fun r =>
        let cs2 := tree_repr_set r.2.2 r.1.location r.1
        let cs3 := tree_repr_set cs2 leaf2.location leaf2
        Res.bind
          (if hashing then
             Res.bind (update_hash H leaf2 epoch r.2.1 cs3) fun u1 =>
             Res.bind (tree_repr_get u1.1 u1.2 r.1.location) fun nc =>
             Res.bind (update_hash H nc.1 epoch u1.1 nc.2) fun u2 =>
               .ok (u2.1, u2.2)
           else .ok (r.2.1, cs3)) fun q =>
        Res.bind (tree_repr_get q.1 q.2 r.1.location) fun sf =>
          .ok (sf.1, nn, q.1, sf.2)
      else
        insert_cases H (insert_single_leaf_helper H fuel) self0 leaf1
          dirs.1 dirs.2.1 dirs.2.2 epoch nn st0 cs1 hashing
    else
      insert_cases H (insert_single_leaf_helper H fuel) self0 new_leaf0
        dirs.1 dirs.2.1 dirs.2.2 epoch num_nodes0 st0 cs0 hashing

/-- `insert_single_leaf`: insertion with hash recomputation. -/
def insert_single_leaf [DecidableEq D] (H : AkdHasher D) (fuel : Nat)
    (self new_leaf : HistoryTreeNode D) (epoch num_nodes : Nat) (st : Store D)
    (cs : Changeset D) :
    Res HTErr (HistoryTreeNode D × Nat × Store D × Changeset D) :=
  insert_single_leaf_helper H fuel self new_leaf epoch num_nodes st cs true

/-- `insert_single_leaf_without_hash`: insertion without hash
recomputation (used by batched insertion, which hashes in a second pass). -/
def insert_single_leaf_without_hash [DecidableEq D] (H : AkdHasher D)
    (fuel : Nat) (self new_leaf : HistoryTreeNode D) (epoch num_nodes : Nat)
    (st : Store D) (cs : Changeset D) :
    Res HTErr (HistoryTreeNode D × Nat × Store D × Changeset D) :=
  insert_single_leaf_helper H fuel self new_leaf epoch num_nodes st cs false

/-! ## The auditor (`auditor.rs`)

`audit_verify` and `verify_consecutive_append_only` are generic over the
hasher and drive an `Azks` through `Azks::new`, `batch_insert_leaves_helper`
and `get_root_hash`.  `azks.rs` is not among the provided sources, so those
three operations are kept abstract (an `AzksOps` record); the auditor's own
control and data flow below is embedded from `auditor.rs`. -/

/-- A node reference `(label, hash)` inside a `SingleAppendOnlyProof`
(spec §6.2). -/
structure ANode (D : Type) where
  label : NodeLabel
  hash : D
  deriving DecidableEq, Repr

structure SingleAppendOnlyProof (D : Type) where
  unchanged_nodes : List (ANode D)
  inserted : List (ANode D)
  deriving DecidableEq, Repr

structure AppendOnlyProof (D : Type) where
  proofs : List (SingleAppendOnlyProof D)
  epochs : List Nat
  deriving DecidableEq, Repr

/-- The errors `audit_verify` can surface: the verification failure itself,
or any error propagated out of the Azks operations (carried opaquely). -/
inductive AkdError where
  | VerifyAppendOnlyProof
  | Propagated (code : Nat)
  deriving DecidableEq, Repr

/-- The observable auditor-side Azks state: its `latest_epoch` field (which
`verify_consecutive_append_only` assigns directly) plus the backing
database/state of type `σ`. -/
structure AuditAzks (σ D : Type) where
  latest_epoch : Nat
  db : σ
  deriving DecidableEq, Repr

/-- The Azks operations used by the auditor, kept abstract because `azks.rs`
is not in src: database creation (the side effects of `Azks::new`),
`batch_insert_leaves_helper` (with its `append_only_usage` flag) and
`get_root_hash`. -/
structure AzksOps (σ D : Type) where
  newDb : Res AkdError σ
  batchInsert : AuditAzks σ D → List (ANode D) → Bool → Res AkdError (AuditAzks σ D)
  rootHash : AuditAzks σ D → Res AkdError D

/-- Modelled from the spec, §4.3: `Azks::new` creates the empty AZKS with
`latest_epoch = 0` (on top of the abstract database-creation effects). -/
def Azks.new {σ D : Type} (ops : AzksOps σ D) : Res AkdError (AuditAzks σ D) :=
  Res.bind ops.newDb fun db => .ok { latest_epoch := 0, db := db }

/-- `verify_consecutive_append_only` from `auditor.rs`: rebuild the start
root from `unchanged_nodes`, compare with `start_hash`, set
`latest_epoch := epoch - 1`, epoch-bind and insert `inserted`, compare the
new root with `end_hash`. -/
def verify_consecutive_append_only {σ : Type} [DecidableEq D]
    (ops : AzksOps σ D) (H : AkdHasher D) (proof : SingleAppendOnlyProof D)
    (start_hash end_hash : D) (epoch : Nat) : Res AkdError Unit :=
  let unchanged_nodes := proof.unchanged_nodes
  let inserted := proof.inserted
  Res.bind (Azks.new ops) fun azks0 =>
  Res.bind (ops.batchInsert azks0 unchanged_nodes true) fun azks1 =>
  Res.bind (ops.rootHash azks1) fun computed_start_root_hash =>
  let verified : Bool := decide (computed_start_root_hash = start_hash)
  let azks2 := { azks1 with latest_epoch := epoch - 1 }
  let updated_inserted :=
    inserted.map fun x => { x with hash := H.mergeWithInt x.hash epoch }
  Res.bind (ops.batchInsert azks2 updated_inserted true) fun azks3 =>
  Res.bind (ops.rootHash azks3) fun computed_end_root_hash =>
  let verified := verified && decide (computed_end_root_hash = end_hash)
  if !verified then .err .VerifyAppendOnlyProof else .ok ()

/-- `usize` (64-bit) wrapping subtraction, for `hashes.len() - 1`. -/
def USIZE : Nat := 2 ^ 64

def usizeSub (a b : Nat) : Nat := (a + USIZE - b) % USIZE

/-- The `for i in 0..hashes.len() - 1` loop of `audit_verify`; `i` is the
loop counter and the second argument the number of remaining iterations.
Out-of-bounds indexing of `hashes`, `proof.proofs` or `proof.epochs`
panics (`crash`). -/
def auditPairs {σ : Type} [DecidableEq D] (ops : AzksOps σ D)
    (H : AkdHasher D) (hashes : List D) (proof : AppendOnlyProof D) :
    Nat → Nat → Res AkdError Unit
  | _, 0 => .ok ()
  | i, n + 1 =>
    match hashes[i]?, hashes[i + 1]?, proof.proofs[i]?, proof.epochs[i]? with
    | some start_hash, some end_hash, some p, some ep =>
      Res.bind
        (verify_consecutive_append_only ops H p start_hash end_hash (ep + 1))
        fun _ => auditPairs ops H hashes proof (i + 1) n
    | _, _, _, _ => .crash

/-- `audit_verify` from `auditor.rs`: verify every adjacent pair of root
hashes.  The iteration count is `hashes.len() - 1` in `usize` arithmetic, so
an empty `hashes` wraps around (and the first iteration's indexing then
panics). -/
def audit_verify {σ : Type} [DecidableEq D] (ops : AzksOps σ D)
    (H : AkdHasher D) (hashes : List D) (proof : AppendOnlyProof D) :
    Res AkdError Unit :=
  auditPairs ops H hashes proof 0 (usizeSub hashes.length 1)

/-- Modelled from the spec, §4.4 steps 1–3: the root hash reconstructed from
`unchanged_nodes` alone, on a fresh AZKS. -/
def auditStartRoot {σ : Type} [DecidableEq D] (ops : AzksOps σ D)
    (proof : SingleAppendOnlyProof D) : Res AkdError D :=
  Res.bind (Azks.new ops) fun a0 =>
  Res.bind (ops.batchInsert a0 proof.unchanged_nodes true) fun a1 =>
  ops.rootHash a1

/-- Modelled from the spec, §4.4 steps 1–5: the root hash reconstructed
after also inserting the epoch-bound `inserted` entries at target epoch
`epoch` (with `latest_epoch` advanced to `epoch - 1` first). -/
def auditEndRoot {σ : Type} [DecidableEq D] (ops : AzksOps σ D)
    (H : AkdHasher D) (proof : SingleAppendOnlyProof D) (epoch : Nat) :
    Res AkdError D :=
  Res.bind (Azks.new ops) fun a0 =>
  Res.bind (ops.batchInsert a0 proof.unchanged_nodes true) fun a1 =>
  let a2 := { a1 with latest_epoch := epoch - 1 }
  let bound := proof.inserted.map fun x =>
    { x with hash := H.mergeWithInt x.hash epoch }
  Res.bind (ops.batchInsert a2 bound true) fun a3 =>
  ops.rootHash a3

/-- Modelled from the spec, §4.4: the verification pipeline in the spec's own
words — fresh AZKS with `latest_epoch = 0`; insert `unchanged_nodes` with
values as given (`append_only_usage = true`); compare the root with the start
hash; advance `latest_epoch` to `epoch - 1`; replace each inserted entry's
hash by `merge_with_int(hash, epoch)` and insert the batch
(`append_only_usage = true`); compare the new root with the end hash; any
failed comparison yields `VerifyAppendOnlyProof`. -/
def specVerifyConsecutive {σ : Type} [DecidableEq D] (ops : AzksOps σ D)
    (H : AkdHasher D) (proof : SingleAppendOnlyProof D)
    (start_hash end_hash : D) (epoch : Nat) : Res AkdError Unit :=
  Res.bind ops.newDb fun db =>
  let fresh : AuditAzks σ D := { latest_epoch := 0, db := db }
  Res.bind (ops.batchInsert fresh proof.unchanged_nodes true) fun a1 =>
  Res.bind (ops.rootHash a1) fun s =>
  let advanced := { a1 with latest_epoch := epoch - 1 }
  let bound := proof.inserted.map fun x =>
    { x with hash := H.mergeWithInt x.hash epoch }
  Res.bind (ops.batchInsert advanced bound true) fun a3 =>
  Res.bind (ops.rootHash a3) fun e =>
  if decide (s = start_hash) && decide (e = end_hash) then .ok ()
  else .err .VerifyAppendOnlyProof

/-- Adjacent pair `i` of an audit is *resolved* when all four list accesses
of the loop body are in bounds and both root reconstructions (from
`unchanged_nodes`, and after adding the epoch-bound `inserted` entries at
target epoch `epochs[i] + 1`) succeed. -/
def pairResolved {σ : Type} [DecidableEq D] (ops : AzksOps σ D)
    (H : AkdHasher D) (hashes : List D) (proof : AppendOnlyProof D)
    (i : Nat) : Prop :=
  ∃ sh eh p ep s e,
    hashes[i]? = some sh ∧ hashes[i + 1]? = some eh ∧
    proof.proofs[i]? = some p ∧ proof.epochs[i]? = some ep ∧
    auditStartRoot ops p = .ok s ∧ auditEndRoot ops H p (ep + 1) = .ok e

/-- Adjacent pair `i` *passes* when the root reconstructed from
`unchanged_nodes` equals `h_i` and the root reconstructed after also
inserting the epoch-bound `inserted` entries (at target epoch
`epochs[i] + 1`) equals `h_{i+1}`. -/
def pairPasses {σ : Type} [DecidableEq D] (ops : AzksOps σ D)
    (H : AkdHasher D) (hashes : List D) (proof : AppendOnlyProof D)
    (i : Nat) : Prop :=
  ∃ sh eh p ep,
    hashes[i]? = some sh ∧ hashes[i + 1]? = some eh ∧
    proof.proofs[i]? = some p ∧ proof.epochs[i]? = some ep ∧
    auditStartRoot ops p = .ok sh ∧ auditEndRoot ops H p (ep + 1) = .ok eh

/-! ## Quorum key sharding (`akd_quorum/crypto.rs`)

The wrapper logic (slicing the key into `QUORUM_KEY_NUM_PARTS` parts,
distributing per-part shares into per-node shards, and reassembling) is
embedded from `crypto.rs`.  The `shamirsecretsharing` crate itself
(`create_shares` / `combine_shares`, `DATA_SIZE`, `SHARE_SIZE`) is an
external dependency, modelled abstractly as an `SSS` record. -/

def DATA_SIZE : Nat := 64

def QUORUM_KEY_NUM_PARTS : Nat := 8

def QUORUM_KEY_SIZE : Nat := QUORUM_KEY_NUM_PARTS * DATA_SIZE

inductive QErr where
  | Sharding
  deriving DecidableEq, Repr

/-- Modelled from the spec: the `shamirsecretsharing` crate's interface.
`create_shares data n k` splits a `DATA_SIZE`-byte block into `n` shares
with reconstruction threshold `k`; `combine_shares` returns `none` when the
shares do not recombine to a secret.  Bytes are `Nat`s. -/
structure SSS where
  SHARE_SIZE : Nat
  create_shares : List Nat → Nat → Nat → Res QErr (List (List Nat))
  combine_shares : List (List Nat) → Res QErr (Option (List Nat))

/-- A node's shard: one `SHARE_SIZE`-byte component per quorum-key part. -/
structure QuorumKeyShard where
  components : List (List Nat)
  deriving DecidableEq, Repr

/-- `QuorumKeyShard::build_from_vec_vec_vec`: convert the raw
per-node share lists into `QuorumKeyShard`s, checking that every share has
exactly `SHARE_SIZE` bytes and every node has exactly
`QUORUM_KEY_NUM_PARTS` components. -/
def build_from_vec_vec_vec (sss : SSS) :
    List (List (List Nat)) → Res QErr (List QuorumKeyShard)
  | [] => .ok []
  | shards :: rest =>
    if (∀ s ∈ shards, s.length = sss.SHARE_SIZE) ∧
        shards.length = QUORUM_KEY_NUM_PARTS then
      Res.bind (build_from_vec_vec_vec sss rest) fun tail =>
        .ok (⟨shards⟩ :: tail)
    else .err .Sharding

def listModify {α : Type} (l : List α) (i : Nat) (f : α → α) : List α :=
  match l[i]? with
  | some a => l.set i (f a)
  | none => l

/-- The `for node_i in 0..num_shards` loop of `generate_shards`: push
`results[node_i]` onto `parts[node_i]`; a missing entry is the source's
"Resulting shards did not have an shard at entry" error.  The first argument
counts the remaining iterations. -/
def pushLoop (results : List (List Nat)) :
    Nat → Nat → List (List (List Nat)) → Res QErr (List (List (List Nat)))
  | 0, _, parts => .ok parts
  | r + 1, node_i, parts =>
    match results[node_i]? with
    | none => .err .Sharding
    | some p => pushLoop results r (node_i + 1) (listModify parts node_i (· ++ [p]))

/-- The `for i in 0..QUORUM_KEY_NUM_PARTS` loop of `generate_shards`: slice
the key, share the slice, distribute the shares.  The slice's `try_into`
into `[u8; DATA_SIZE]` fails when the slice is shorter than `DATA_SIZE`. -/
def partsLoop (sss : SSS) (quorum_key : List Nat)
    (num_shards num_approvals : Nat) :
    Nat → Nat → List (List (List Nat)) → Res QErr (List (List (List Nat)))
  | 0, _, parts => .ok parts
  | r + 1, i, parts =>
    let part := (quorum_key.drop (i * DATA_SIZE)).take DATA_SIZE
    if part.length = DATA_SIZE then
      Res.bind (sss.create_shares part num_shards num_approvals) fun results =>
      Res.bind (pushLoop results num_shards 0 parts) fun parts2 =>
        partsLoop sss quorum_key num_shards num_approvals r (i + 1) parts2
    else .err .Sharding

/-- `generate_shards(quorum_key, f)`: `num_shards = 3 * f + 1` and
`num_approvals = 2 * f + 1` are computed in `u8` arithmetic, so the
computation panics (`crash`) when `3 * f + 1` exceeds `u8::MAX = 255`. -/
def generate_shards (sss : SSS) (quorum_key : List Nat) (f : Nat) :
    Res QErr (List QuorumKeyShard) :=
  if 3 * f + 1 > 255 then .crash
  else
    let num_shards := 3 * f + 1
    let num_approvals := 2 * f + 1
    Res.bind
      (partsLoop sss quorum_key num_shards num_approvals QUORUM_KEY_NUM_PARTS 0
        (List.replicate num_shards []))
      fun parts => build_from_vec_vec_vec sss parts

/-- The `for i in 0..QUORUM_KEY_NUM_PARTS` loop of `reconstruct_shards`:
recombine the `i`-th component of every shard and concatenate the parts
(writing consecutive `DATA_SIZE`-byte slices of the zero-initialized result
buffer is concatenation).  `combine_shares` yielding `none` or a part of the
wrong length is the source's sharding error. -/
def reconLoop (sss : SSS) (shards : List QuorumKeyShard) :
    Nat → Nat → Res QErr (List Nat)
  | 0, _ => .ok []
  | r + 1, i =>
    let part_i := shards.map fun shard => shard.components.getD i []
    Res.bind (sss.combine_shares part_i) fun some_key =>
    match some_key with
    | some key =>
      if key.length = DATA_SIZE then
        Res.bind (reconLoop sss shards r (i + 1)) fun rest => .ok (key ++ rest)
      else .err .Sharding
    | none => .err .Sharding

/-- `reconstruct_shards(shards)`. -/
def reconstruct_shards (sss : SSS) (shards : List QuorumKeyShard) :
    Res QErr (List Nat) :=
  reconLoop sss shards QUORUM_KEY_NUM_PARTS 0

/-! ## Concrete instances (used to evaluate the theorems on explicit inputs) -/

/-- A concrete hasher over `Nat` digests. -/
def natHasher : AkdHasher Nat :=
  { hashEmpty := 4
    merge := fun a b => 2 + a * 31 + b * 101
    mergeWithInt := fun d e => 3 + d * 7 + e * 13
    hashLabel := fun l => 5 + l.val * 11 + l.len * 17
    dummyHashVal := 0
    newStateValue := 1 }

/-- Concrete Azks operations: the database counts inserted nodes and the
root hash is that count. -/
def countOps : AzksOps Nat Nat :=
  { newDb := .ok 0
    batchInsert := fun a ns _ =>
      .ok { latest_epoch := a.latest_epoch, db := a.db + ns.length }
    rootHash := fun a => .ok a.db }

/-- A concrete secret-sharing scheme satisfying the threshold contract: a
share of `data` with threshold `k` is `k :: i :: data`, and recombination
checks that at least `k` distinct shares of the same block are present. -/
def toyCombine (shares : List (List Nat)) : Option (List Nat) :=
  match shares with
  | [] => none
  | s :: _ =>
    let thr := s.headD 0
    let d := s.drop 2
    if (∀ t ∈ shares, t.length = DATA_SIZE + 2 ∧ t.headD 0 = thr ∧ t.drop 2 = d)
        ∧ (shares.map fun t => t.getD 1 0).Nodup ∧ thr ≤ shares.length then
      some d
    else none

def toySSS : SSS :=
  { SHARE_SIZE := DATA_SIZE + 2
    create_shares := fun data n k =>
      if 1 ≤ k ∧ k ≤ n ∧ n ≤ 255 ∧ data.length = DATA_SIZE then
        .ok ((List.range n).map fun i => k :: i :: data)
      else .err .Sharding
    combine_shares := fun shares => .ok (toyCombine shares) }

/-- A concrete three-node store: a root (location 0) whose right child is
the leaf `A` (location 1, label `1000₂`), both live since epoch 1; plus the
state of a detached leaf `B` (label `1001₂`) born at epoch 2, as
`get_leaf_node_without_hashing` would have written it. -/
def nodeA : HistoryTreeNode Nat :=
  { label := ⟨8, 4⟩, location := 1, epochs := [1], parent := 0
    node_type := .Leaf }

def rootNode : HistoryTreeNode Nat :=
  { label := ⟨0, 0⟩, location := 0, epochs := [1], parent := 0
    node_type := .Root }

def leafB : HistoryTreeNode Nat :=
  { label := ⟨9, 4⟩, location := 2, epochs := [2], parent := 0
    node_type := .Leaf }

def childA : HistoryChildState Nat :=
  { dummy_marker := .Real, location := 1, label := ⟨8, 4⟩
    hash_val := natHasher.merge 42 (natHasher.hashLabel ⟨8, 4⟩)
    epoch_version := 1 }

def rootState : HistoryNodeState Nat :=
  { value := 1, child0 := dummyChild natHasher, child1 := childA }

def demoStore : Store Nat :=
  { nodes := [(0, rootNode), (1, nodeA)]
    states :=
      [((⟨0, 0⟩, 1), rootState),
       ((⟨8, 4⟩, 1), { HistoryNodeState.fresh natHasher with value := 42 }),
       ((⟨9, 4⟩, 2), { HistoryNodeState.fresh natHasher with value := 99 })] }

/-- An interior node `I` (label `1₂`, location 3) whose left child is real
(the leaf `A`) and whose right child is a dummy, used to exercise the
descent case of the insertion. -/
def nodeI : HistoryTreeNode Nat :=
  { label := ⟨1, 1⟩, location := 3, epochs := [1], parent := 0
    node_type := .Interior }

def stateI : HistoryNodeState Nat :=
  { value := 1, child0 := childA, child1 := dummyChild natHasher }

def demoStoreI : Store Nat :=
  { nodes := demoStore.nodes ++ [(3, nodeI)]
    states := demoStore.states ++ [((⟨1, 1⟩, 1), stateI)] }

/-- Extract the payload of an `ok` outcome (with a default), used to name
the result of a concrete run inside witness statements. -/
def okOf {ε α : Type} (r : Res ε α) (d : α) : α :=
  match r with
  | .ok a => a
  | _ => d

/-- The concrete split-case run: insert leaf `B` (label 1001₂) below leaf
`A` (label 1000₂) at epoch 2 with next free location 3, without hashing. -/
def splitRun : Res HTErr (HistoryTreeNode Nat × Nat × Store Nat × Changeset Nat) :=
  insert_single_leaf_without_hash natHasher 1 nodeA leafB 2 3 demoStore []

/-- The outcome of `splitRun`. -/
def splitOut : HistoryTreeNode Nat × Nat × Store Nat × Changeset Nat :=
  okOf splitRun (rootNode, 0, demoStore, [])

/-- A node is *good for epoch `e`* when its epochs list is strictly
increasing and every entry is at most `e` (insertions happen at
non-decreasing epochs, so `e` bounds everything written so far). -/
@[reducible] def GoodNode {D : Type} (e : Nat) (n : HistoryTreeNode D) : Prop :=
  List.Chain' (· < ·) n.epochs ∧ ∀ x ∈ n.epochs, x ≤ e

/-- Every node reachable through the changeset or the node storage is good
for epoch `e`. -/
@[reducible] def GoodView {D : Type} (e : Nat) (st : Store D) (cs : Changeset D) : Prop :=
  (∀ loc n, alookup cs loc = some n → GoodNode e n) ∧
  (∀ loc n, alookup st.nodes loc = some n → GoodNode e n)

/-! ## Theorems -/

/-- **C10.** `get_birth_epoch` indexes `epochs[0]` unconditionally and so
panics on a node with an empty epochs list — as produced by
`HistoryTreeNode::new` and by `get_empty_root` with no epoch — whereas
`get_latest_epoch` on the same node returns the `NodeCreatedWithoutEpochs`
error instead of panicking. -/
theorem claim_C10 {D : Type} [DecidableEq D] (H : AkdHasher D) (st : Store D)
    (label : NodeLabel) (location parent : Nat) (nt : NodeType) :
    (HistoryTreeNode.new D label location parent nt).epochs = [] ∧
    (get_empty_root H none st).1.epochs = [] ∧
    (∀ n : HistoryTreeNode D, n.epochs = [] →
      get_birth_epoch n = Res.crash ∧
      get_latest_epoch n = Res.err (.NodeCreatedWithoutEpochs n.label.val)) := by
  refine ⟨rfl, rfl, fun n h => ⟨?_, ?_⟩⟩
  · simp [get_birth_epoch, h]
  · simp [get_latest_epoch, h]

/-- Witness for C10 at a concrete node. -/
theorem claim_C10_witness :
    ((HistoryTreeNode.new Nat ⟨5, 3⟩ 0 0 NodeType.Root).epochs = [] ∧
      get_birth_epoch (HistoryTreeNode.new Nat ⟨5, 3⟩ 0 0 NodeType.Root) =
        Res.crash ∧
      get_latest_epoch (HistoryTreeNode.new Nat ⟨5, 3⟩ 0 0 NodeType.Root) =
        Res.err (.NodeCreatedWithoutEpochs 5)) := by
  have h := claim_C10 natHasher demoStore ⟨5, 3⟩ 0 0 NodeType.Root
  exact ⟨h.1, (h.2.2 _ h.1).1, (h.2.2 _ h.1).2⟩

/-- **C9.** `audit_verify` iterates over `hashes.len() - 1` pairs with
unchecked `usize` subtraction: on an empty `hashes` it panics, and with
exactly one hash it succeeds for any proof (and any Azks operations),
without examining the proof at all. -/
theorem claim_C9 {σ D : Type} [DecidableEq D] (ops : AzksOps σ D)
    (H : AkdHasher D) (proof proof2 : AppendOnlyProof D) (h : D) :
    audit_verify ops H [] proof = Res.crash ∧
    audit_verify ops H [h] proof2 = Res.ok () := by
  constructor
  · have hs : usizeSub ([] : List D).length 1 = (USIZE - 2) + 1 := by
      norm_num [usizeSub, USIZE]
    rw [audit_verify, hs]
    simp [auditPairs]
  · have hs : usizeSub ([h] : List D).length 1 = 0 := by
      norm_num [usizeSub, USIZE]
    rw [audit_verify, hs]
    rfl

/-- **C2.** `verify_consecutive_append_only` follows the spec's pipeline
exactly: the `unchanged_nodes` are inserted (flag `true`) into a fresh
in-memory AZKS whose `latest_epoch` is still `0`, with their hash values as
given; only after the start-root computation is `latest_epoch` assigned
`epoch - 1`; and every `inserted` entry has its hash replaced by
`merge_with_int(hash, epoch)` before that batch is inserted (flag `true`). -/
theorem claim_C2 {σ D : Type} [DecidableEq D] (ops : AzksOps σ D)
    (H : AkdHasher D) (proof : SingleAppendOnlyProof D)
    (start_hash end_hash : D) (epoch : Nat) :
    verify_consecutive_append_only ops H proof start_hash end_hash epoch =
      specVerifyConsecutive ops H proof start_hash end_hash epoch := by
  unfold verify_consecutive_append_only specVerifyConsecutive Azks.new
  cases hdb : ops.newDb with
  | err e => simp [hdb]
  | crash => simp [hdb]
  | ok db =>
    simp only [Res.bind]
    cases h1 : ops.batchInsert ⟨0, db⟩ proof.unchanged_nodes true <;>
      simp only [Res.bind]
    case ok a1 =>
      cases h2 : ops.rootHash a1 <;> simp only [Res.bind]
      case ok s =>
        cases h3 : ops.batchInsert { a1 with latest_epoch := epoch - 1 }
            (proof.inserted.map fun x =>
              { x with hash := H.mergeWithInt x.hash epoch }) true <;>
          simp only [Res.bind]
        case ok a3 =>
          cases h4 : ops.rootHash a3 <;> simp only [Res.bind]
          case ok e =>
            by_cases hs : s = start_hash <;> by_cases he : e = end_hash <;>
              simp [hs, he]

/-- Witness for C2 at concrete operations and proof. -/
theorem claim_C2_witness :
    verify_consecutive_append_only countOps natHasher
        ⟨[], [⟨⟨0, 0⟩, 7⟩]⟩ 0 1 1 =
      specVerifyConsecutive countOps natHasher ⟨[], [⟨⟨0, 0⟩, 7⟩]⟩ 0 1 1 :=
  claim_C2 countOps natHasher ⟨[], [⟨⟨0, 0⟩, 7⟩]⟩ 0 1 1

/-- `verify_consecutive_append_only` succeeds or fails according to the two
root-hash comparisons, whenever both reconstructions succeed. -/
theorem verify_consecutive_char {σ D : Type} [DecidableEq D]
    (ops : AzksOps σ D) (H : AkdHasher D) (proof : SingleAppendOnlyProof D)
    (sh eh : D) (ep : Nat) {s e : D}
    (hs : auditStartRoot ops proof = .ok s)
    (he : auditEndRoot ops H proof ep = .ok e) :
    verify_consecutive_append_only ops H proof sh eh ep =
      if s = sh ∧ e = eh then .ok () else .err .VerifyAppendOnlyProof := by
  unfold auditStartRoot at hs
  obtain ⟨a0, ha0, hs⟩ := Res.bind_eq_ok hs
  obtain ⟨a1, ha1, hs⟩ := Res.bind_eq_ok hs
  unfold auditEndRoot at he
  obtain ⟨a0', ha0', he⟩ := Res.bind_eq_ok he
  rw [ha0] at ha0'
  injection ha0' with ha0'
  subst ha0'
  obtain ⟨a1', ha1', he⟩ := Res.bind_eq_ok he
  rw [ha1] at ha1'
  injection ha1' with ha1'
  subst ha1'
  simp only at he
  obtain ⟨a3, ha3, he⟩ := Res.bind_eq_ok he
  unfold verify_consecutive_append_only
  simp only [ha0, Res.bind_ok, ha1, hs, ha3, he]
  by_cases h1 : s = sh <;> by_cases h2 : e = eh <;> simp [h1, h2]

/-- Characterization of the `audit_verify` loop: starting at index `i` with
`n` iterations left, the loop succeeds iff every covered pair passes, and
the first failing pair produces the `VerifyAppendOnlyProof` error. -/
theorem auditPairs_char {σ D : Type} [DecidableEq D] (ops : AzksOps σ D)
    (H : AkdHasher D) (hashes : List D) (proof : AppendOnlyProof D) :
    ∀ n i,
      (∀ j, i ≤ j → j < i + n → pairResolved ops H hashes proof j) →
      ((auditPairs ops H hashes proof i n = .ok () ↔
          ∀ j, i ≤ j → j < i + n → pairPasses ops H hashes proof j) ∧
        ∀ jm, i ≤ jm → jm < i + n →
          (∀ j, i ≤ j → j < jm → pairPasses ops H hashes proof j) →
          ¬ pairPasses ops H hashes proof jm →
          auditPairs ops H hashes proof i n = .err .VerifyAppendOnlyProof) := by
  intro n
  induction n with
  | zero =>
    intro i _
    refine ⟨⟨fun _ j hj1 hj2 => absurd hj2 (by omega), fun _ => rfl⟩, ?_⟩
    intro jm hjm1 hjm2
    exact absurd hjm2 (by omega)
  | succ n ih =>
    intro i hres
    obtain ⟨sh, eh, p, ep, s, e, hh1, hh2, hp, hep, hsr, her⟩ :=
      hres i (le_refl i) (by omega)
    have hvc := verify_consecutive_char ops H p sh eh (ep + 1) hsr her
    have hstep : auditPairs ops H hashes proof i (n + 1) =
        Res.bind (verify_consecutive_append_only ops H p sh eh (ep + 1))
          (fun _ => auditPairs ops H hashes proof (i + 1) n) := by
      simp only [auditPairs, hh1, hh2, hp, hep]
    by_cases hpass : s = sh ∧ e = eh
    · have hpi : pairPasses ops H hashes proof i :=
        ⟨sh, eh, p, ep, hh1, hh2, hp, hep, hpass.1 ▸ hsr, hpass.2 ▸ her⟩
      have ihh := ih (i + 1) (fun j hj1 hj2 => hres j (by omega) (by omega))
      constructor
      · rw [hstep, hvc, if_pos hpass, Res.bind_ok, ihh.1]
        constructor
        · intro hall j hj1 hj2
          rcases Nat.eq_or_lt_of_le hj1 with hj | hj
          · exact hj ▸ hpi
          · exact hall j (by omega) (by omega)
        · intro hall j hj1 hj2
          exact hall j (by omega) (by omega)
      · intro jm hjm1 hjm2 hpref hfail
        rcases Nat.eq_or_lt_of_le hjm1 with hj | hj
        · exact absurd (hj ▸ hpi) hfail
        · rw [hstep, hvc, if_pos hpass, Res.bind_ok]
          exact ihh.2 jm (by omega) (by omega)
            (fun j hj1 hj2 => hpref j (by omega) hj2) hfail
    · have hresult : auditPairs ops H hashes proof i (n + 1) =
          .err .VerifyAppendOnlyProof := by
        rw [hstep, hvc, if_neg hpass, Res.bind_err]
      refine ⟨⟨fun h => ?_, fun hall => ?_⟩, fun jm _ _ _ _ => hresult⟩
      · rw [hresult] at h
        cases h
      · exfalso
        obtain ⟨sh', eh', p', ep', g1, g2, g3, g4, g5, g6⟩ :=
          hall i (le_refl i) (by omega)
        rw [hh1] at g1
        injection g1 with g1
        rw [hp] at g3
        injection g3 with g3
        rw [hep] at g4
        injection g4 with g4
        rw [hh2] at g2
        injection g2 with g2
        subst g1 g2 g3 g4
        rw [hsr] at g5
        injection g5 with g5
        rw [her] at g6
        injection g6 with g6
        exact hpass ⟨g5, g6⟩

/-- **C1.** For root hashes `h_0 … h_k` and an `AppendOnlyProof` with `k`
single proofs and `k` epochs, `audit_verify` verifies each adjacent pair
`(h_i, h_{i+1})` at target epoch `epochs[i] + 1`: provided every pair's
reconstructions succeed, it returns success iff for every pair the root
rebuilt from `unchanged_nodes` equals `h_i` and the root rebuilt after also
inserting the epoch-bound `inserted` entries equals `h_{i+1}`; the first
failing pair produces the `VerifyAppendOnlyProof` error. -/
theorem claim_C1 {σ D : Type} [DecidableEq D] (ops : AzksOps σ D)
    (H : AkdHasher D) (hashes : List D) (proof : AppendOnlyProof D)
    (hlen : 1 ≤ hashes.length) (hlen2 : hashes.length ≤ USIZE)
    (hres : ∀ j, j < hashes.length - 1 → pairResolved ops H hashes proof j) :
    (audit_verify ops H hashes proof = .ok () ↔
      ∀ j, j < hashes.length - 1 → pairPasses ops H hashes proof j) ∧
    (∀ jm, jm < hashes.length - 1 →
      (∀ j, j < jm → pairPasses ops H hashes proof j) →
      ¬ pairPasses ops H hashes proof jm →
      audit_verify ops H hashes proof = .err .VerifyAppendOnlyProof) := by
  have hsub : usizeSub hashes.length 1 = hashes.length - 1 := by
    unfold usizeSub
    have h1 : hashes.length + USIZE - 1 = (hashes.length - 1) + USIZE := by
      omega
    rw [h1, Nat.add_mod_right, Nat.mod_eq_of_lt (by omega)]
  have hmain := auditPairs_char ops H hashes proof (hashes.length - 1) 0
    (fun j _ hj2 => hres j (by omega))
  rw [audit_verify, hsub]
  constructor
  · rw [hmain.1]
    exact ⟨fun hall j hj => hall j (by omega) (by omega),
      fun hall j _ hj2 => hall j (by omega)⟩
  · intro jm hjm hpref hfail
    exact hmain.2 jm (by omega) (by omega)
      (fun j _ hj2 => hpref j (by omega)) hfail

/-- Witness for C1 at concrete operations, hashes and proof. -/
theorem claim_C1_witness :
    ((1 ≤ ([0, 1] : List Nat).length) ∧
      (([0, 1] : List Nat).length ≤ USIZE) ∧
      (∀ j, j < ([0, 1] : List Nat).length - 1 →
        pairResolved countOps natHasher [0, 1]
          ⟨[⟨[], [⟨⟨0, 0⟩, 7⟩]⟩], [0]⟩ j)) ∧
    ((audit_verify countOps natHasher [0, 1]
        ⟨[⟨[], [⟨⟨0, 0⟩, 7⟩]⟩], [0]⟩ = .ok ()) ↔
      ∀ j, j < ([0, 1] : List Nat).length - 1 →
        pairPasses countOps natHasher [0, 1]
          ⟨[⟨[], [⟨⟨0, 0⟩, 7⟩]⟩], [0]⟩ j) := by
  have h1 : 1 ≤ ([0, 1] : List Nat).length := by norm_num
  have h2 : ([0, 1] : List Nat).length ≤ USIZE := by norm_num [USIZE]
  have hres : ∀ j, j < ([0, 1] : List Nat).length - 1 →
      pairResolved countOps natHasher [0, 1]
        ⟨[⟨[], [⟨⟨0, 0⟩, 7⟩]⟩], [0]⟩ j := by
    intro j hj
    have hj0 : j = 0 := by simpa using hj
    subst hj0
    exact ⟨0, 1, ⟨[], [⟨⟨0, 0⟩, 7⟩]⟩, 0, 0, 1, rfl, rfl, rfl, rfl, rfl, rfl⟩
  exact ⟨⟨h1, h2, hres⟩,
    (claim_C1 countOps natHasher [0, 1] ⟨[⟨[], [⟨⟨0, 0⟩, 7⟩]⟩], [0]⟩
      h1 h2 hres).1⟩

/-- The `chosen_ep` fold picks the largest stored epoch `≤ e` on a strictly
increasing list. -/
theorem foldl_chosen (e : Nat) :
    ∀ (l : List Nat) (acc : Nat), acc ≤ e → List.Pairwise (· < ·) l →
      ((chosenEp l acc e = acc ∨ chosenEp l acc e ∈ l) ∧
        chosenEp l acc e ≤ e ∧
        ∀ x ∈ l, x ≤ e → x ≤ chosenEp l acc e) := by
  intro l
  induction l with
  | nil => intro acc hacc _; exact ⟨Or.inl rfl, hacc, by simp⟩
  | cons x xs ih =>
    intro acc hacc hpw
    have hpw' : List.Pairwise (· < ·) xs := hpw.tail
    by_cases hx : x ≤ e
    · have hrec := ih x hx hpw'
      have hfold : chosenEp (x :: xs) acc e = chosenEp xs x e := by
        simp [chosenEp, hx]
      rw [hfold]
      refine ⟨?_, hrec.2.1, ?_⟩
      · rcases hrec.1 with h | h
        · exact Or.inr (by simp [h])
        · exact Or.inr (by simp [h])
      · intro y hy hye
        rcases List.mem_cons.mp hy with rfl | hy
        · rcases hrec.1 with h | h
          · omega
          · have := List.rel_of_pairwise_cons hpw h
            omega
        · exact hrec.2.2 y hy hye
    · have hrec := ih acc hacc hpw'
      have hfold : chosenEp (x :: xs) acc e = chosenEp xs acc e := by
        simp [chosenEp, hx]
      rw [hfold]
      refine ⟨?_, hrec.2.1, ?_⟩
      · rcases hrec.1 with h | h
        · exact Or.inl h
        · exact Or.inr (by simp [h])
      · intro y hy hye
        rcases List.mem_cons.mp hy with rfl | hy
        · omega
        · exact hrec.2.2 y hy hye

/-- **C4 (amended).** For a node with non-empty, strictly increasing epochs:
when `e ≥ epochs[0]`, both `get_state_at_epoch e` and
`get_child_at_epoch e dir` resolve to the state stored at the largest epoch
in `epochs` that is `≤ e` (piecewise-constant semantics); when
`e < epochs[0]`, `get_state_at_epoch` fails with `NodeDidNotExistAtEp`
while `get_child_at_epoch` fails with `NoChildInTreeAtEpoch` (the claim's
statement that both fail with `NodeDidNotExistAtEp` is refuted by
`claim_C4_counterexample`). -/
theorem claim_C4 {D : Type} [DecidableEq D] (n : HistoryTreeNode D)
    (st : Store D) (e b : Nat) (rest : List Nat) (d : Nat)
    (hne : n.epochs = b :: rest) (hsort : List.Pairwise (· < ·) n.epochs) :
    (b ≤ e → ∃ m, m ∈ n.epochs ∧ m ≤ e ∧ (∀ x ∈ n.epochs, x ≤ e → x ≤ m) ∧
      get_state_at_epoch n e st = get_state_at_existing_epoch n m st ∧
      get_child_at_epoch n e (some d) st =
        get_child_at_existing_epoch n m (some d) st) ∧
    (e < b →
      get_state_at_epoch n e st = .err (.NodeDidNotExistAtEp n.label e) ∧
      get_child_at_epoch n e (some d) st = .err (.NoChildInTreeAtEpoch e d)) := by
  have hbirth : get_birth_epoch n = .ok b := by
    simp [get_birth_epoch, hne]
  constructor
  · intro hbe
    have hch := foldl_chosen e n.epochs b hbe hsort
    refine ⟨chosenEp n.epochs b e, ?_, hch.2.1, hch.2.2, ?_, ?_⟩
    · rcases hch.1 with h | h
      · rw [h, hne]; exact List.mem_cons_self _ _
      · exact h
    · rw [get_state_at_epoch, hbirth, Res.bind_ok, if_neg (by omega)]
    · rw [get_child_at_epoch, hbirth, Res.bind_ok, if_neg (by omega)]
  · intro hlt
    constructor
    · rw [get_state_at_epoch, hbirth, Res.bind_ok, if_pos (by omega)]
    · rw [get_child_at_epoch, hbirth, Res.bind_ok, if_pos (by omega)]

/-- Witness for C4 at a concrete node, exercising both the `e ≥ epochs[0]`
and the `e < epochs[0]` conclusions. -/
theorem claim_C4_witness :
    (nodeA.epochs = 1 :: [] ∧ List.Pairwise (· < ·) nodeA.epochs) ∧
    ((1 : Nat) ≤ 3 → ∃ m, m ∈ nodeA.epochs ∧ m ≤ 3 ∧
      (∀ x ∈ nodeA.epochs, x ≤ 3 → x ≤ m) ∧
      get_state_at_epoch nodeA 3 demoStore =
        get_state_at_existing_epoch nodeA m demoStore ∧
      get_child_at_epoch nodeA 3 (some 0) demoStore =
        get_child_at_existing_epoch nodeA m (some 0) demoStore) ∧
    ((3 : Nat) < 1 →
      get_state_at_epoch nodeA 3 demoStore =
        .err (.NodeDidNotExistAtEp nodeA.label 3) ∧
      get_child_at_epoch nodeA 3 (some 0) demoStore =
        .err (.NoChildInTreeAtEpoch 3 0)) := by
  have h := claim_C4 nodeA demoStore 3 1 [] 0 (by decide) (by decide)
  exact ⟨⟨by decide, by decide⟩, h.1, h.2⟩

/-- Counterexample to C4 as stated: at an epoch before the node's birth,
`get_child_at_epoch` returns `NoChildInTreeAtEpoch`, not the
`NodeDidNotExistAtEp` error the claim names. -/
theorem claim_C4_counterexample :
    get_child_at_epoch nodeA 0 (some 0) demoStore =
      Res.err (.NoChildInTreeAtEpoch 0 0) ∧
    get_child_at_epoch nodeA 0 (some 0) demoStore ≠
      Res.err (.NodeDidNotExistAtEp nodeA.label 0) := by
  decide

/-! ### Sharding loop characterizations -/

theorem listModify_get {α : Type} (l : List α) (i : Nat) (f : α → α)
    (j : Nat) :
    (listModify l i f)[j]? = if j = i then (l[i]?).map f else l[j]? := by
  unfold listModify
  cases hi : l[i]? with
  | none =>
    by_cases hj : j = i
    · subst hj; simp [hi]
    · simp [hj]
  | some a =>
    have hlen : i < l.length := by
      by_contra hc
      rw [List.getElem?_eq_none (by omega)] at hi
      cases hi
    by_cases hj : j = i
    · subst hj
      simp [List.getElem?_set_self', hi]
    · simp [List.getElem?_set_ne (by omega : i ≠ j), hj]

theorem pushLoop_spec (results : List (List Nat)) :
    ∀ (r node_i : Nat) (parts : List (List (List Nat))),
      node_i + r ≤ results.length →
      ∃ parts2, pushLoop results r node_i parts = .ok parts2 ∧
        parts2.length = parts.length ∧
        ∀ j, parts2[j]? =
          if node_i ≤ j ∧ j < node_i + r then
            (parts[j]?).map (fun q => q ++ [results.getD j []])
          else parts[j]? := by
  intro r
  induction r with
  | zero =>
    intro node_i parts _
    refine ⟨parts, rfl, rfl, fun j => ?_⟩
    rw [if_neg (by omega)]
  | succ r ih =>
    intro node_i parts hr
    have hni : node_i < results.length := by omega
    have hres : results[node_i]? = some results[node_i] :=
      List.getElem?_eq_getElem hni
    have hstep : pushLoop results (r + 1) node_i parts =
        pushLoop results r (node_i + 1)
          (listModify parts node_i (· ++ [results[node_i]])) := by
      rw [pushLoop, hres]
    obtain ⟨parts2, h1, h2, h3⟩ := ih (node_i + 1)
      (listModify parts node_i (· ++ [results[node_i]])) (by omega)
    refine ⟨parts2, by rw [hstep, h1], ?_, fun j => ?_⟩
    · rw [h2]
      unfold listModify
      cases hpi : parts[node_i]? with
      | none => rfl
      | some q => simp
    · rw [h3 j, listModify_get]
      have hgd : results.getD j [] = if j = node_i then results[node_i] else
          results.getD j [] := by
        by_cases hj : j = node_i
        · subst hj
          simp [List.getD_eq_getElem?_getD, hres]
        · rw [if_neg hj]
      by_cases hj1 : j = node_i
      · subst hj1
        rw [if_neg (by omega), if_pos rfl, if_pos (by omega),
          hgd, if_pos rfl]
      · rw [if_neg hj1]
        by_cases hj2 : node_i + 1 ≤ j ∧ j < node_i + 1 + r
        · rw [if_pos hj2, if_pos (by omega)]
        · rw [if_neg hj2, if_neg (by omega)]

theorem partsLoop_spec (sss : SSS) (quorum_key : List Nat) (ns na : Nat)
    (R : Nat → List (List Nat)) :
    ∀ (r i : Nat) (parts : List (List (List Nat))),
      (∀ i', i ≤ i' → i' < i + r →
        ((quorum_key.drop (i' * DATA_SIZE)).take DATA_SIZE).length = DATA_SIZE ∧
        sss.create_shares ((quorum_key.drop (i' * DATA_SIZE)).take DATA_SIZE)
          ns na = .ok (R i') ∧
        ns ≤ (R i').length) →
      ∃ parts2, partsLoop sss quorum_key ns na r i parts = .ok parts2 ∧
        parts2.length = parts.length ∧
        ∀ j, parts2[j]? =
          if j < ns then
            (parts[j]?).map
              (fun q => q ++ ((List.range' i r).map fun i' => (R i').getD j []))
          else parts[j]? := by
  intro r
  induction r with
  | zero =>
    intro i parts _
    refine ⟨parts, rfl, rfl, fun j => ?_⟩
    by_cases hj : j < ns
    · rw [if_pos hj]
      simp
    · rw [if_neg hj]
  | succ r ih =>
    intro i parts hok
    obtain ⟨hlen, hcr, hns⟩ := hok i (le_refl i) (by omega)
    obtain ⟨parts1, hp1, hp1len, hp1get⟩ :=
      pushLoop_spec (R i) ns 0 parts (by omega)
    obtain ⟨parts2, hp2, hp2len, hp2get⟩ := ih (i + 1) parts1
      (fun i' h1 h2 => hok i' (by omega) (by omega))
    have hstep : partsLoop sss quorum_key ns na (r + 1) i parts =
        partsLoop sss quorum_key ns na r (i + 1) parts1 := by
      rw [partsLoop, if_pos hlen, hcr, Res.bind_ok, hp1, Res.bind_ok]
    refine ⟨parts2, by rw [hstep, hp2], by rw [hp2len, hp1len], fun j => ?_⟩
    rw [hp2get j, hp1get j, List.range'_succ]
    by_cases hj : j < ns
    · rw [if_pos hj, if_pos hj, if_pos (by omega)]
      cases parts[j]? with
      | none => rfl
      | some q => simp
    · rw [if_neg hj, if_neg hj, if_neg (by omega)]

theorem build_spec (sss : SSS) :
    ∀ parts : List (List (List Nat)),
      (∀ comp ∈ parts, (∀ s ∈ comp, s.length = sss.SHARE_SIZE) ∧
        comp.length = QUORUM_KEY_NUM_PARTS) →
      build_from_vec_vec_vec sss parts =
        .ok (parts.map fun comp => ⟨comp⟩) := by
  intro parts
  induction parts with
  | nil => intro _; rfl
  | cons comp rest ih =>
    intro h
    rw [build_from_vec_vec_vec, if_pos (h comp (List.mem_cons_self _ _)),
      ih (fun c hc => h c (List.mem_cons_of_mem _ hc)), Res.bind_ok]
    rfl

/-- Joining the consecutive `DATA_SIZE`-slices of a list recovers it. -/
theorem sliceJoin_eq (n : Nat) :
    ∀ key : List Nat, key.length = n * DATA_SIZE →
      (((List.range n).map fun i =>
        (key.drop (i * DATA_SIZE)).take DATA_SIZE).flatten) = key := by
  induction n with
  | zero =>
    intro key hk
    simp at hk
    simp [hk]
  | succ n ih =>
    intro key hk
    rw [List.range_succ_eq_map]
    simp only [List.map_cons, List.map_map, List.flatten_cons]
    have hshift : (List.range n).map ((fun i =>
          (key.drop (i * DATA_SIZE)).take DATA_SIZE) ∘ Nat.succ) =
        (List.range n).map fun i =>
          ((key.drop DATA_SIZE).drop (i * DATA_SIZE)).take DATA_SIZE := by
      refine List.map_congr_left fun i _ => ?_
      simp only [Function.comp]
      rw [List.drop_drop]
      congr 2
      simp only [DATA_SIZE]
      omega
    rw [hshift, ih (key.drop DATA_SIZE) (by simp [hk]; ring_nf; omega)]
    simp [List.take_append_drop]

theorem reconLoop_ok (sss : SSS) (shards : List QuorumKeyShard)
    (slice : Nat → List Nat) :
    ∀ r i,
      (∀ i', i ≤ i' → i' < i + r →
        sss.combine_shares (shards.map fun sh => sh.components.getD i' []) =
          .ok (some (slice i')) ∧ (slice i').length = DATA_SIZE) →
      reconLoop sss shards r i = .ok (((List.range' i r).map slice).flatten) := by
  intro r
  induction r with
  | zero => intro i _; simp [reconLoop]
  | succ r ih =>
    intro i h
    obtain ⟨hcomb, hlen⟩ := h i (le_refl i) (by omega)
    have hrec := ih (i + 1) (fun i' h1 h2 => h i' (by omega) (by omega))
    rw [reconLoop, hcomb, Res.bind_ok]
    simp [hlen, hrec, List.range'_succ]

/-- **C8 (amended).** For every quorum key of `QUORUM_KEY_SIZE` bytes and
every `f` with `3 * f + 1 ≤ 255` (the shard counts are computed in `u8`
arithmetic), and for any secret-sharing scheme satisfying the threshold
contract: `generate_shards` produces exactly `3f + 1` shards,
`reconstruct_shards` on any subset of at least `2f + 1` of them returns the
original key, and on any subset of at most `2f` of them returns an error.
(The claim's "every f" is refuted at `f = 85` by
`claim_C8_counterexample`.) -/
theorem claim_C8 (sss : SSS) (key : List Nat) (f : Nat)
    (hcreate : ∀ d n k, 1 ≤ k → k ≤ n → n ≤ 255 → d.length = DATA_SIZE →
      ∃ res, sss.create_shares d n k = .ok res ∧ res.length = n ∧
        ∀ s ∈ res, s.length = sss.SHARE_SIZE)
    (hcombine_ok : ∀ d n k res sub, 1 ≤ k → k ≤ n → n ≤ 255 →
      d.length = DATA_SIZE → sss.create_shares d n k = .ok res →
      sub.Sublist res → k ≤ sub.length →
      sss.combine_shares sub = .ok (some d))
    (hcombine_fail : ∀ d n k res sub, 1 ≤ k → k ≤ n → n ≤ 255 →
      d.length = DATA_SIZE → sss.create_shares d n k = .ok res →
      sub.Sublist res → sub.length < k →
      sss.combine_shares sub = .ok none)
    (hkey : key.length = QUORUM_KEY_SIZE) (hf : 3 * f + 1 ≤ 255) :
    ∃ shards, generate_shards sss key f = .ok shards ∧
      shards.length = 3 * f + 1 ∧
      (∀ sub, sub.Sublist shards → 2 * f + 1 ≤ sub.length →
        reconstruct_shards sss sub = .ok key) ∧
      (∀ sub, sub.Sublist shards → sub.length ≤ 2 * f →
        reconstruct_shards sss sub = .err .Sharding) := by
  have hslice : ∀ i, i < QUORUM_KEY_NUM_PARTS →
      ((key.drop (i * DATA_SIZE)).take DATA_SIZE).length = DATA_SIZE := by
    intro i hi
    simp only [List.length_take, List.length_drop, hkey]
    simp only [QUORUM_KEY_SIZE, QUORUM_KEY_NUM_PARTS, DATA_SIZE] at *
    omega
  have hRex : ∀ i, ∃ res, i < QUORUM_KEY_NUM_PARTS →
      sss.create_shares ((key.drop (i * DATA_SIZE)).take DATA_SIZE)
        (3 * f + 1) (2 * f + 1) = .ok res ∧ res.length = 3 * f + 1 ∧
      ∀ s ∈ res, s.length = sss.SHARE_SIZE := by
    intro i
    by_cases hi : i < QUORUM_KEY_NUM_PARTS
    · obtain ⟨res, h1, h2, h3⟩ := hcreate _ (3 * f + 1) (2 * f + 1)
        (by omega) (by omega) (by omega) (hslice i hi)
      exact ⟨res, fun _ => ⟨h1, h2, h3⟩⟩
    · exact ⟨[], fun h => absurd h hi⟩
  choose R hR using hRex
  obtain ⟨parts2, hpl, hplen, hpget⟩ :=
    partsLoop_spec sss key (3 * f + 1) (2 * f + 1) R QUORUM_KEY_NUM_PARTS 0
      (List.replicate (3 * f + 1) [])
      (fun i' h1 h2 =>
        ⟨hslice i' (by omega), (hR i' (by omega)).1,
          by rw [(hR i' (by omega)).2.1]⟩)
  have hrep : ∀ j : Nat, (List.replicate (3 * f + 1) ([] : List (List Nat)))[j]? =
      if j < 3 * f + 1 then some [] else none := by
    intro j
    by_cases hj : j < 3 * f + 1
    · rw [if_pos hj, List.getElem?_eq_getElem (by simpa using hj)]
      simp
    · rw [if_neg hj, List.getElem?_eq_none (by simpa using hj)]
  have hget : ∀ j, j < 3 * f + 1 →
      parts2[j]? = some ((List.range' 0 QUORUM_KEY_NUM_PARTS).map
        fun i' => (R i').getD j []) := by
    intro j hj
    rw [hpget j, if_pos hj, hrep j, if_pos hj]
    simp
  have hgetn : ∀ j, 3 * f + 1 ≤ j → parts2[j]? = none := by
    intro j hj
    rw [hpget j, if_neg (by omega), hrep j, if_neg (by omega)]
  have hplen2 : parts2.length = 3 * f + 1 := by
    rw [hplen]
    simp
  have hbuild := build_spec sss parts2 (by
    intro comp hcomp
    obtain ⟨j, hj⟩ := List.mem_iff_getElem?.mp hcomp
    have hjlt : j < 3 * f + 1 := by
      by_contra hc
      rw [hgetn j (by omega)] at hj
      cases hj
    rw [hget j hjlt] at hj
    injection hj with hj
    subst hj
    constructor
    · intro s hs
      obtain ⟨i', hi', hsi⟩ := List.mem_map.mp hs
      have hi'lt : i' < QUORUM_KEY_NUM_PARTS := by
        have := List.mem_range'.mp hi'
        omega
      have hjR : j < (R i').length := by
        rw [(hR i' hi'lt).2.1]; omega
      rw [← hsi, List.getD_eq_getElem?_getD, List.getElem?_eq_getElem hjR]
      exact (hR i' hi'lt).2.2 _ (List.getElem_mem hjR)
    · simp)
  refine ⟨parts2.map fun comp => ⟨comp⟩, ?_, ?_, ?_, ?_⟩
  · simp only [generate_shards]
    rw [if_neg (by omega : ¬3 * f + 1 > 255), hpl, Res.bind_ok, hbuild]
  · rw [List.length_map, hplen2]
  all_goals {
    have hcols : ∀ i, i < QUORUM_KEY_NUM_PARTS →
        ((parts2.map fun comp => (⟨comp⟩ : QuorumKeyShard)).map
          fun sh => sh.components.getD i []) = R i := by
      intro i hi
      apply List.ext_getElem?
      intro j
      rw [List.map_map, List.getElem?_map]
      by_cases hj : j < 3 * f + 1
      · rw [hget j hj]
        have hjR : j < (R i).length := by rw [(hR i hi).2.1]; omega
        rw [List.getElem?_eq_getElem hjR]
        simp only [Option.map_some', Function.comp]
        congr 1
        have hrange : (List.range' 0 QUORUM_KEY_NUM_PARTS)[i]? = some i := by
          rw [List.getElem?_eq_getElem (by simpa using hi)]
          simp
        rw [List.getD_eq_getElem?_getD, List.getElem?_map, hrange]
        simp [List.getD_eq_getElem?_getD, List.getElem?_eq_getElem hjR]
      · rw [hgetn j (by omega)]
        rw [List.getElem?_eq_none (by rw [(hR i hi).2.1]; omega)]
        rfl
    first
    | -- enough shards: reconstruction returns the key
      intro sub hsub hlen
      have hrec := reconLoop_ok sss sub
        (fun i => (key.drop (i * DATA_SIZE)).take DATA_SIZE)
        QUORUM_KEY_NUM_PARTS 0 (by
          intro i' h1 h2
          have hi' : i' < QUORUM_KEY_NUM_PARTS := by omega
          refine ⟨?_, hslice i' hi'⟩
          have hsubmap : (sub.map fun sh => sh.components.getD i' []).Sublist
              (R i') := by
            rw [← hcols i' hi']
            exact hsub.map _
          exact hcombine_ok _ (3 * f + 1) (2 * f + 1) (R i') _
            (by omega) (by omega) (by omega) (hslice i' hi')
            (hR i' hi').1 hsubmap (by simpa using hlen))
      rw [reconstruct_shards, hrec]
      congr 1
      have := sliceJoin_eq QUORUM_KEY_NUM_PARTS key
        (by rw [hkey]; rfl)
      rw [← List.range_eq_range']
      exact this
    | -- too few shards: reconstruction fails
      intro sub hsub hlen
      have h0 : (0 : Nat) < QUORUM_KEY_NUM_PARTS := by
        simp [QUORUM_KEY_NUM_PARTS]
      have hsubmap : (sub.map fun sh => sh.components.getD 0 []).Sublist
          (R 0) := by
        rw [← hcols 0 h0]
        exact hsub.map _
      have hcomb := hcombine_fail _ (3 * f + 1) (2 * f + 1) (R 0)
        (sub.map fun sh => sh.components.getD 0 [])
        (by omega) (by omega) (by omega) (hslice 0 h0) (hR 0 h0).1 hsubmap
        (by simpa using by omega : (sub.map fun sh => sh.components.getD 0 []).length < 2 * f + 1)
      show reconLoop sss sub QUORUM_KEY_NUM_PARTS 0 = .err .Sharding
      have h8 : QUORUM_KEY_NUM_PARTS = 7 + 1 := rfl
      rw [h8, reconLoop, hcomb, Res.bind_ok]
  }

/-- Counterexample to C8 as stated ("for every f"): at `f = 85`,
`3 * f + 1 = 256` overflows the `u8` shard count, so `generate_shards`
panics instead of producing `3f + 1` shards. -/
theorem claim_C8_counterexample :
    generate_shards toySSS (List.replicate QUORUM_KEY_SIZE 0) 85 =
      Res.crash ∧
    ¬∃ shards,
      generate_shards toySSS (List.replicate QUORUM_KEY_SIZE 0) 85 =
        Res.ok shards ∧ shards.length = 3 * 85 + 1 := by
  have h : generate_shards toySSS (List.replicate QUORUM_KEY_SIZE 0) 85 =
      Res.crash := by
    rw [generate_shards, if_pos (by omega)]
  refine ⟨h, ?_⟩
  rintro ⟨shards, hs, -⟩
  rw [h] at hs
  cases hs

theorem toy_create_spec (d : List Nat) (n k : Nat) (h1 : 1 ≤ k)
    (h2 : k ≤ n) (h3 : n ≤ 255) (h4 : d.length = DATA_SIZE) :
    ∃ res, toySSS.create_shares d n k = .ok res ∧ res.length = n ∧
      ∀ s ∈ res, s.length = toySSS.SHARE_SIZE := by
  refine ⟨(List.range n).map fun i => k :: i :: d, ?_, by simp, ?_⟩
  · show (if 1 ≤ k ∧ k ≤ n ∧ n ≤ 255 ∧ d.length = DATA_SIZE then _ else _) = _
    rw [if_pos ⟨h1, h2, h3, h4⟩]
  · intro s hs
    obtain ⟨i, _, rfl⟩ := List.mem_map.mp hs
    show (k :: i :: d).length = DATA_SIZE + 2
    simp [h4]

theorem toy_create_eq (d : List Nat) (n k : Nat) (res : List (List Nat))
    (h : toySSS.create_shares d n k = .ok res) :
    res = (List.range n).map fun i => k :: i :: d := by
  by_cases hc : 1 ≤ k ∧ k ≤ n ∧ n ≤ 255 ∧ d.length = DATA_SIZE
  · have : toySSS.create_shares d n k =
        .ok ((List.range n).map fun i => k :: i :: d) := by
      show (if 1 ≤ k ∧ k ≤ n ∧ n ≤ 255 ∧ d.length = DATA_SIZE then _ else _) = _
      rw [if_pos hc]
    rw [this] at h
    injection h with h
    exact h.symm
  · have : toySSS.create_shares d n k = .err .Sharding := by
      show (if 1 ≤ k ∧ k ≤ n ∧ n ≤ 255 ∧ d.length = DATA_SIZE then _ else _) = _
      rw [if_neg hc]
    rw [this] at h
    cases h

theorem toy_combine_ok (d : List Nat) (n k : Nat)
    (res sub : List (List Nat)) (h1 : 1 ≤ k) (h2 : k ≤ n) (h3 : n ≤ 255)
    (h4 : d.length = DATA_SIZE) (hcr : toySSS.create_shares d n k = .ok res)
    (hsub : sub.Sublist res) (hk : k ≤ sub.length) :
    toySSS.combine_shares sub = .ok (some d) := by
  have hres := toy_create_eq d n k res hcr
  subst hres
  have hform : ∀ t ∈ sub, ∃ i, t = k :: i :: d := by
    intro t ht
    obtain ⟨i, _, hi⟩ := List.mem_map.mp (hsub.subset ht)
    exact ⟨i, hi.symm⟩
  show Res.ok (toyCombine sub) = .ok (some d)
  congr 1
  match sub, hk, hform, hsub with
  | [], hk, _, _ =>
    simp at hk
    omega
  | s :: rest, hk, hform, hsub =>
    obtain ⟨i0, hs0⟩ := hform s (List.mem_cons_self _ _)
    show (if (∀ t ∈ s :: rest, t.length = DATA_SIZE + 2 ∧
        t.headD 0 = s.headD 0 ∧ t.drop 2 = s.drop 2) ∧
        ((s :: rest).map fun t => t.getD 1 0).Nodup ∧
        s.headD 0 ≤ (s :: rest).length then some (s.drop 2) else none) =
      some d
    have hhead : s.headD 0 = k := by rw [hs0]; rfl
    have hdrop : s.drop 2 = d := by rw [hs0]; rfl
    rw [if_pos ?_, hdrop]
    refine ⟨?_, ?_, ?_⟩
    · intro t ht
      obtain ⟨i, hti⟩ := hform t ht
      subst hti
      refine ⟨by simp [h4], by rw [hhead]; rfl, by rw [hdrop]; rfl⟩
    · have hmap : ((s :: rest).map fun t => t.getD 1 0).Sublist
          (((List.range n).map fun i => k :: i :: d).map fun t => t.getD 1 0) :=
        hsub.map _
      rw [List.map_map] at hmap
      have : ((fun t : List Nat => t.getD 1 0) ∘ fun i => k :: i :: d) = id := by
        funext i
        rfl
      rw [this, List.map_id] at hmap
      exact (List.nodup_range n).sublist hmap
    · rw [hhead]
      simpa using hk

theorem toy_combine_fail (d : List Nat) (n k : Nat)
    (res sub : List (List Nat)) (h1 : 1 ≤ k) (h2 : k ≤ n) (h3 : n ≤ 255)
    (h4 : d.length = DATA_SIZE) (hcr : toySSS.create_shares d n k = .ok res)
    (hsub : sub.Sublist res) (hk : sub.length < k) :
    toySSS.combine_shares sub = .ok none := by
  have hres := toy_create_eq d n k res hcr
  subst hres
  have hform : ∀ t ∈ sub, ∃ i, t = k :: i :: d := by
    intro t ht
    obtain ⟨i, _, hi⟩ := List.mem_map.mp (hsub.subset ht)
    exact ⟨i, hi.symm⟩
  show Res.ok (toyCombine sub) = .ok none
  congr 1
  match sub, hk, hform with
  | [], _, _ => rfl
  | s :: rest, hk, hform =>
    obtain ⟨i0, hs0⟩ := hform s (List.mem_cons_self _ _)
    show (if (∀ t ∈ s :: rest, t.length = DATA_SIZE + 2 ∧
        t.headD 0 = s.headD 0 ∧ t.drop 2 = s.drop 2) ∧
        ((s :: rest).map fun t => t.getD 1 0).Nodup ∧
        s.headD 0 ≤ (s :: rest).length then some (s.drop 2) else none) = none
    have hhead : s.headD 0 = k := by rw [hs0]; rfl
    rw [if_neg]
    rintro ⟨-, -, hc⟩
    rw [hhead] at hc
    omega

/-- Witness for C8: the toy scheme satisfies the threshold contract, and at
`f = 1` the theorem yields 4 shards with 3-of-4 reconstruction. -/
theorem claim_C8_witness :
    ((List.replicate QUORUM_KEY_SIZE 0).length = QUORUM_KEY_SIZE ∧
      3 * 1 + 1 ≤ 255) ∧
    (∃ shards,
      generate_shards toySSS (List.replicate QUORUM_KEY_SIZE 0) 1 =
        .ok shards ∧
      shards.length = 3 * 1 + 1 ∧
      (∀ sub, sub.Sublist shards → 2 * 1 + 1 ≤ sub.length →
        reconstruct_shards toySSS sub = .ok (List.replicate QUORUM_KEY_SIZE 0)) ∧
      (∀ sub, sub.Sublist shards → sub.length ≤ 2 * 1 →
        reconstruct_shards toySSS sub = .err .Sharding)) := by
  refine ⟨⟨by simp, by omega⟩, ?_⟩
  exact claim_C8 toySSS (List.replicate QUORUM_KEY_SIZE 0) 1
    (fun d n k h1 h2 h3 h4 => toy_create_spec d n k h1 h2 h3 h4)
    (fun d n k res sub h1 h2 h3 h4 h5 h6 h7 =>
      toy_combine_ok d n k res sub h1 h2 h3 h4 h5 h6 h7)
    (fun d n k res sub h1 h2 h3 h4 h5 h6 h7 =>
      toy_combine_fail d n k res sub h1 h2 h3 h4 h5 h6 h7)
    (by simp) (by omega)

/-! ### Hashing discipline (C3) -/

theorem setChild_get {D : Type} (s : HistoryNodeState D) (d : Nat)
    (c : HistoryChildState D) :
    (s.setChild d c).get_child_state_in_dir d = c := by
  unfold HistoryNodeState.setChild HistoryNodeState.get_child_state_in_dir
  by_cases hd : d = 0 <;> simp [hd]

/-- Whenever `update_hash_at_parent` succeeds on a non-root node, the parent
node sits in the changeset under `n.parent` and its state at `epoch` stores
`new_hash_val` in the child slot chosen for `n`. -/
theorem update_hash_at_parent_post {D : Type} [DecidableEq D]
    (H : AkdHasher D) (n : HistoryTreeNode D) (e : Nat) (hv : D)
    (st : Store D) (cs : Changeset D) (st' : Store D) (cs' : Changeset D)
    (hroot : n.is_root = false)
    (h : update_hash_at_parent H n e hv st cs = .ok (st', cs')) :
    ∃ p sdir ps, alookup cs' n.parent = some p ∧
      alookup st'.states (p.label, e) = some ps ∧
      (ps.get_child_state_in_dir sdir).hash_val = hv := by
  rw [update_hash_at_parent, if_neg (by simp [hroot])] at h
  obtain ⟨pc, hpc, h⟩ := Res.bind_eq_ok h
  obtain ⟨ple, hple, h⟩ := Res.bind_eq_ok h
  obtain ⟨q, hq, h⟩ := Res.bind_eq_ok h
  revert h
  cases hsm : get_state_map q.1 e q.2.1 with
  | err er => intro h; cases h
  | crash => intro h; cases h
  | ok pstate =>
    intro h
    obtain ⟨d, hd, h⟩ := Res.bind_eq_ok h
    revert h
    cases d with
    | none => intro h; cases h
    | some sdir =>
      intro h
      injection h with h
      obtain ⟨hst, hcs⟩ := Prod.mk.inj h
      refine ⟨q.1, sdir,
        pstate.setChild sdir
          { pstate.get_child_state_in_dir sdir with hash_val := hv },
        ?_, ?_, ?_⟩
      · rw [← hcs]
        simp [tree_repr_set]
      · rw [← hst]
        simp [set_state_map]
      · rw [setChild_get]

/-- **C3.** For every leaf, `update_hash` writes
`H.merge(state.value, hash_label(label))` — the leaf's stored value folded
with its label — into the parent's child slot; and for every node, the value
packaged for a parent's `child_states` slot by
`to_node_unhashed_child_state` is the fully label-folded
`H.merge(value, hash_label(label))`, so parents only concatenate
pre-labeled child hashes. -/
theorem claim_C3 {D : Type} [DecidableEq D] (H : AkdHasher D) :
    (∀ (n : HistoryTreeNode D) (e : Nat) (st st' : Store D)
        (cs cs' : Changeset D) (v : D),
      n.node_type = .Leaf →
      get_value n st = .ok v →
      update_hash H n e st cs = .ok (st', cs') →
      ∃ p sdir ps, alookup cs' n.parent = some p ∧
        alookup st'.states (p.label, e) = some ps ∧
        (ps.get_child_state_in_dir sdir).hash_val =
          H.merge v (H.hashLabel n.label)) ∧
    (∀ (n : HistoryTreeNode D) (st : Store D) (c : HistoryChildState D),
      to_node_unhashed_child_state H n st = .ok c →
      ∃ v, get_value n st = .ok v ∧
        c.hash_val = H.merge v (H.hashLabel n.label)) := by
  constructor
  · intro n e st st' cs cs' v hleaf hval hrun
    rw [update_hash, hleaf, hval, Res.bind_ok] at hrun
    exact update_hash_at_parent_post H n e _ st cs st' cs'
      (by simp [HistoryTreeNode.is_root, hleaf]) hrun
  · intro n st c hrun
    rw [to_node_unhashed_child_state] at hrun
    obtain ⟨v, hv, hrun⟩ := Res.bind_eq_ok hrun
    obtain ⟨le, hle, hrun⟩ := Res.bind_eq_ok hrun
    injection hrun with hrun
    exact ⟨v, hv, by rw [← hrun]⟩

/-- Witness for C3: a concrete `update_hash` run on the leaf `A` writes the
label-folded hash into the root's child slot. -/
theorem claim_C3_witness :
    (nodeA.node_type = .Leaf ∧
      get_value nodeA demoStore = .ok 42 ∧
      update_hash natHasher nodeA 1 demoStore [] =
        .ok (okOf (update_hash natHasher nodeA 1 demoStore [])
          (demoStore, []))) ∧
    (∃ p sdir ps,
      alookup (okOf (update_hash natHasher nodeA 1 demoStore [])
        (demoStore, [])).2 nodeA.parent = some p ∧
      alookup (okOf (update_hash natHasher nodeA 1 demoStore [])
        (demoStore, [])).1.states (p.label, 1) = some ps ∧
      (ps.get_child_state_in_dir sdir).hash_val =
        natHasher.merge 42 (natHasher.hashLabel nodeA.label)) :=
  ⟨⟨rfl, by decide, by decide⟩,
    (claim_C3 natHasher).1 nodeA 1 demoStore
      (okOf (update_hash natHasher nodeA 1 demoStore []) (demoStore, [])).1
      []
      (okOf (update_hash natHasher nodeA 1 demoStore []) (demoStore, [])).2
      42 rfl (by decide) (by decide)⟩

/-- **C5.** In `insert_single_leaf_helper` on a non-root node whose label is
a prefix of the new leaf's label (`dir_self` is none), the child at
`dir_leaf` at the node's latest epoch decides the outcome: a `Real` child
makes the insertion recurse into that child (followed by the hash/refresh
wrap-up), a `Dummy` child makes it fail with `CompressionError`. -/
theorem claim_C5 {D : Type} [DecidableEq D] (H : AkdHasher D) (fuel : Nat)
    (self new_leaf : HistoryTreeNode D) (e num : Nat) (st : Store D)
    (cs : Changeset D) (hashing : Bool) (lcs : NodeLabel) (dl : Direction)
    (le : Nat) (cst : HistoryChildState D)
    (hroot : self.is_root = false)
    (hdirs : self.label.get_longest_common_prefix_and_dirs new_leaf.label =
      (lcs, dl, none))
    (hle : get_latest_epoch self = .ok le)
    (hcst : get_child_at_epoch self le dl st = .ok cst) :
    (cst.dummy_marker = .Dummy →
      insert_single_leaf_helper H (fuel + 1) self new_leaf e num st cs
          hashing =
        .err (.CompressionError self.label)) ∧
    (cst.dummy_marker = .Real →
      insert_single_leaf_helper H (fuel + 1) self new_leaf e num st cs
          hashing =
        Res.bind (tree_repr_get st cs cst.location) fun cc =>
          Res.bind
            (insert_single_leaf_helper H fuel cc.1 new_leaf e num st cc.2
              hashing) fun r =>
          Res.bind
            (if hashing then
              Res.bind (tree_repr_get r.2.2.1 r.2.2.2 self.location) fun sc =>
              Res.bind (update_hash H sc.1 e r.2.2.1 sc.2) fun u =>
                .ok (u.1, tree_repr_set u.2 sc.1.location sc.1)
            else .ok (r.2.2.1, r.2.2.2)) fun q =>
          Res.bind (tree_repr_get q.1 q.2 self.location) fun sf =>
            .ok (sf.1, r.2.1, q.1, sf.2)) := by
  have hstep : insert_single_leaf_helper H (fuel + 1) self new_leaf e num st
      cs hashing =
      insert_cases H (insert_single_leaf_helper H fuel) self new_leaf lcs dl
        none e num st cs hashing := by
    rw [insert_single_leaf_helper]
    simp only [hdirs, hroot]
    rfl
  have hcases : insert_cases H (insert_single_leaf_helper H fuel) self
      new_leaf lcs dl none e num st cs hashing =
      Res.bind (get_child_at_epoch self le dl st) fun child_st =>
        match child_st.dummy_marker with
        | .Dummy => .err (.CompressionError self.label)
        | .Real =>
          Res.bind (tree_repr_get st cs child_st.location) fun cc =>
            Res.bind
              (insert_single_leaf_helper H fuel cc.1 new_leaf e num st cc.2
                hashing) fun r =>
            Res.bind
              (if hashing then
                Res.bind (tree_repr_get r.2.2.1 r.2.2.2 self.location)
                  fun sc =>
                Res.bind (update_hash H sc.1 e r.2.2.1 sc.2) fun u =>
                  .ok (u.1, tree_repr_set u.2 sc.1.location sc.1)
              else .ok (r.2.2.1, r.2.2.2)) fun q =>
            Res.bind (tree_repr_get q.1 q.2 self.location) fun sf =>
              .ok (sf.1, r.2.1, q.1, sf.2) := by
    rw [insert_cases, hle, Res.bind_ok]
  constructor
  · intro hdum
    rw [hstep, hcases, hcst, Res.bind_ok, hdum]
  · intro hreal
    rw [hstep, hcases, hcst, Res.bind_ok, hreal]

/-- Witness for C5: inserting a leaf whose path hits the interior node `I`'s
dummy child fails with `CompressionError`. -/
theorem claim_C5_witness :
    (nodeI.is_root = false ∧
      nodeI.label.get_longest_common_prefix_and_dirs
        (⟨12, 4⟩ : NodeLabel) = (⟨1, 1⟩, some 1, none) ∧
      get_latest_epoch nodeI = .ok 1 ∧
      get_child_at_epoch nodeI 1 (some 1) demoStoreI =
        .ok (dummyChild natHasher)) ∧
    insert_single_leaf_helper natHasher 1 nodeI
        { label := ⟨12, 4⟩, location := 4, epochs := [2], parent := 0
          node_type := .Leaf } 2 4 demoStoreI [] false =
      .err (.CompressionError nodeI.label) :=
  ⟨⟨by decide, by decide, by decide, by decide⟩,
    (claim_C5 natHasher 0 nodeI
      { label := ⟨12, 4⟩, location := 4, epochs := [2], parent := 0
        node_type := .Leaf } 2 4 demoStoreI [] false ⟨1, 1⟩ (some 1) 1
      (dummyChild natHasher) (by decide) (by decide) (by decide)
      (by decide)).1 (by decide)⟩

/-! ### Epoch-list invariants (C7) -/

theorem alookup_mem {α β : Type} [DecidableEq α] :
    ∀ (l : List (α × β)) (k : α) (v : β), alookup l k = some v → (k, v) ∈ l := by
  intro l
  induction l with
  | nil => intro k v h; cases h
  | cons kv t ih =>
    intro k v h
    rw [alookup] at h
    by_cases hk : k = kv.1
    · rw [if_pos hk] at h
      injection h with h
      subst h hk
      exact List.mem_cons_self _ _
    · rw [if_neg hk] at h
      exact List.mem_cons_of_mem _ (ih k v h)

theorem goodview_set {D : Type} (e : Nat) (st : Store D) (cs : Changeset D)
    (k : Nat) (v : HistoryTreeNode D) (hv : GoodView e st cs)
    (hg : GoodNode e v) : GoodView e st (tree_repr_set cs k v) := by
  refine ⟨fun loc m h => ?_, hv.2⟩
  by_cases hk : loc = k
  · subst hk
    rw [tree_repr_set, alookup_aset_same] at h
    injection h with h
    exact h ▸ hg
  · rw [tree_repr_set, alookup_aset_ne _ _ _ _ hk] at h
    exact hv.1 loc m h

theorem goodview_states {D : Type} [DecidableEq D] (e : Nat) (st : Store D)
    (cs : Changeset D) (n : HistoryTreeNode D) (ep : Nat)
    (x : HistoryNodeState D) (hv : GoodView e st cs) :
    GoodView e (set_state_map n ep x st) cs :=
  ⟨hv.1, hv.2⟩

theorem tree_repr_get_good {D : Type} [DecidableEq D] (e : Nat)
    (st : Store D) (cs : Changeset D) (loc : Nat)
    (pc : HistoryTreeNode D × Changeset D)
    (h : tree_repr_get st cs loc = .ok pc) (hv : GoodView e st cs) :
    GoodNode e pc.1 ∧ GoodView e st pc.2 := by
  rw [tree_repr_get] at h
  revert h
  cases h1 : alookup cs loc with
  | some m =>
    intro h
    injection h with h
    rw [← h]
    exact ⟨hv.1 _ _ h1, hv⟩
  | none =>
    cases h2 : alookup st.nodes loc with
    | some m =>
      intro h
      injection h with h
      rw [← h]
      exact ⟨hv.2 _ _ h2, goodview_set e st cs loc m hv (hv.2 _ _ h2)⟩
    | none => intro h; cases h

theorem goodnode_push {D : Type} (e : Nat) (n : HistoryTreeNode D)
    (hn : GoodNode e n)
    (hlast : ∀ x, n.epochs.getLast? = some x → x < e) :
    GoodNode e ({ n with epochs := n.epochs ++ [e] } : HistoryTreeNode D) := by
  refine ⟨?_, ?_⟩
  · rw [List.chain'_append]
    refine ⟨hn.1, List.chain'_singleton e, fun x hx y hy => ?_⟩
    simp only [List.head?_cons, Option.mem_def, Option.some.injEq] at hy
    subst hy
    exact hlast x hx
  · intro x hx
    rcases List.mem_append.mp hx with h | h
    · exact hn.2 x h
    · simp only [List.mem_singleton] at h
      omega

theorem set_child_good {D : Type} [DecidableEq D] (H : AkdHasher D)
    (n : HistoryTreeNode D) (e : Nat)
    (child : Direction × HistoryChildState D) (st : Store D)
    (cs : Changeset D) (n' : HistoryTreeNode D) (st' : Store D)
    (cs' : Changeset D)
    (h : set_child_without_hash H n e child st cs = .ok (n', st', cs'))
    (hn : GoodNode e n) (hv : GoodView e st cs) :
    GoodNode e n' ∧ GoodView e st' cs' := by
  rw [set_child_without_hash] at h
  revert h
  cases hdir : child.1 with
  | none => intro h; cases h
  | some dir =>
    cases h1 : get_state_map n e st with
    | ok s =>
      intro h
      injection h with h
      obtain ⟨hna, hrest⟩ := Prod.mk.inj h
      obtain ⟨hsta, hcsa⟩ := Prod.mk.inj hrest
      subst hna hsta hcsa
      exact ⟨hn, hv.1, hv.2⟩
    | crash => intro h; cases h
    | err er =>
      intro h
      obtain ⟨latest0, hl0, h⟩ := Res.bind_eq_ok h
      obtain ⟨base, hbase, h⟩ := Res.bind_eq_ok h
      simp only [hl0] at h
      have hgood2 : GoodNode e
          (if latest0 ≠ e then { n with epochs := n.epochs ++ [e] } else n) := by
        by_cases hne : latest0 ≠ e
        · rw [if_pos hne]
          refine goodnode_push e n hn fun x hx => ?_
          unfold get_latest_epoch at hl0
          rw [hx] at hl0
          injection hl0 with hl0
          have hmem : x ∈ n.epochs := by
            obtain ⟨hne2, hxe⟩ :=
              List.mem_getLast?_eq_getLast (show x ∈ n.epochs.getLast? from hx)
            rw [hxe]
            exact List.getLast_mem hne2
          have hxle := hn.2 x hmem
          omega
        · rw [if_neg hne]
          exact hn
      revert h
      cases h2 : get_state_map
          (if latest0 ≠ e then { n with epochs := n.epochs ++ [e] } else n) e
          (set_state_map n e base st) with
      | ok s2 =>
        intro h
        injection h with h
        obtain ⟨hna, hrest⟩ := Prod.mk.inj h
        obtain ⟨hsta, hcsa⟩ := Prod.mk.inj hrest
        subst hna hsta hcsa
        refine ⟨hgood2, ?_, hv.2⟩
        have := goodview_set e st cs
          (if latest0 ≠ e then { n with epochs := n.epochs ++ [e] } else n).location
          _ hv hgood2
        exact this.1
      | err er2 => intro h; cases h
      | crash => intro h; cases h

theorem set_node_child_good {D : Type} [DecidableEq D] (H : AkdHasher D)
    (n : HistoryTreeNode D) (e : Nat) (dir : Direction)
    (c : HistoryTreeNode D) (st : Store D) (cs : Changeset D)
    (n' : HistoryTreeNode D) (st' : Store D) (cs' : Changeset D)
    (h : set_node_child_without_hash H n e dir c st cs = .ok (n', st', cs'))
    (hn : GoodNode e n) (hv : GoodView e st cs) :
    GoodNode e n' ∧ GoodView e st' cs' := by
  rw [set_node_child_without_hash] at h
  obtain ⟨cstate, hcst, h⟩ := Res.bind_eq_ok h
  exact set_child_good H n e (dir, cstate) st cs n' st' cs' h hn hv

theorem update_hash_at_parent_good {D : Type} [DecidableEq D]
    (H : AkdHasher D) (n : HistoryTreeNode D) (e : Nat) (hv0 : D)
    (st : Store D) (cs : Changeset D) (st' : Store D) (cs' : Changeset D)
    (h : update_hash_at_parent H n e hv0 st cs = .ok (st', cs'))
    (hv : GoodView e st cs) : GoodView e st' cs' := by
  rw [update_hash_at_parent] at h
  by_cases hroot : n.is_root
  · rw [if_pos hroot] at h
    injection h with h
    obtain ⟨h1, h2⟩ := Prod.mk.inj h
    subst h1 h2
    exact hv
  · rw [if_neg hroot] at h
    obtain ⟨pc, hpc, h⟩ := Res.bind_eq_ok h
    obtain ⟨hpg, hvc⟩ := tree_repr_get_good e st cs n.parent pc hpc hv
    obtain ⟨ple, hple, h⟩ := Res.bind_eq_ok h
    obtain ⟨q, hq, h⟩ := Res.bind_eq_ok h
    have hqg : GoodNode e q.1 ∧ GoodView e q.2.1 q.2.2 := by
      revert hq
      by_cases hlt : ple < e
      · rw [if_pos hlt]
        intro hq
        obtain ⟨r, hr, hq⟩ := Res.bind_eq_ok hq
        obtain ⟨hrg, hrv⟩ := set_node_child_good H pc.1 e _ n st pc.2
          r.1 r.2.1 r.2.2 (by rw [← hr]) hpg hvc
        obtain ⟨pc2, hpc2, hq⟩ := Res.bind_eq_ok hq
        obtain ⟨hpc2g, hpc2v⟩ := tree_repr_get_good e r.2.1
          (tree_repr_set r.2.2 n.parent r.1) n.parent pc2 hpc2
          (goodview_set e r.2.1 r.2.2 n.parent r.1 hrv hrg)
        injection hq with hq
        rw [← hq]
        exact ⟨hpc2g, hpc2v⟩
      · rw [if_neg hlt]
        intro hq
        injection hq with hq
        rw [← hq]
        exact ⟨hpg, hvc⟩
    revert h
    cases hsm : get_state_map q.1 e q.2.1 with
    | err er => intro h; cases h
    | crash => intro h; cases h
    | ok pstate =>
      intro h
      obtain ⟨d, hd, h⟩ := Res.bind_eq_ok h
      revert h
      cases d with
      | none => intro h; cases h
      | some sdir =>
        intro h
        injection h with h
        obtain ⟨h1, h2⟩ := Prod.mk.inj h
        subst h1 h2
        exact ⟨(goodview_set e q.2.1 q.2.2 n.parent q.1 hqg.2 hqg.1).1,
          hqg.2.2⟩

theorem update_hash_good {D : Type} [DecidableEq D] (H : AkdHasher D)
    (n : HistoryTreeNode D) (e : Nat) (st : Store D) (cs : Changeset D)
    (st' : Store D) (cs' : Changeset D)
    (h : update_hash H n e st cs = .ok (st', cs'))
    (hn : GoodNode e n) (hv : GoodView e st cs) : GoodView e st' cs' := by
  rw [update_hash] at h
  revert h
  cases hnt : n.node_type with
  | Leaf =>
    intro h
    obtain ⟨v, hval, h⟩ := Res.bind_eq_ok h
    exact update_hash_at_parent_good H n e _ st cs st' cs' h hv
  | Root =>
    intro h
    obtain ⟨hd0, hhn, h⟩ := Res.bind_eq_ok h
    obtain ⟨es, hes, h⟩ := Res.bind_eq_ok h
    exact update_hash_at_parent_good H n e _ _ _ st' cs' h
      ⟨(goodview_set e _ cs n.location n ⟨hv.1, hv.2⟩ hn).1, hv.2⟩
  | Interior =>
    intro h
    obtain ⟨hd0, hhn, h⟩ := Res.bind_eq_ok h
    obtain ⟨es, hes, h⟩ := Res.bind_eq_ok h
    exact update_hash_at_parent_good H n e _ _ _ st' cs' h
      ⟨(goodview_set e _ cs n.location n ⟨hv.1, hv.2⟩ hn).1, hv.2⟩

theorem insert_cases_good {D : Type} [DecidableEq D] (H : AkdHasher D)
    (rec : InsertFn D) (e : Nat)
    (hrec : ∀ (self leaf : HistoryTreeNode D) (num : Nat) (st : Store D)
      (cs : Changeset D) (hashing : Bool)
      (out : HistoryTreeNode D × Nat × Store D × Changeset D),
      rec self leaf e num st cs hashing = .ok out → GoodNode e self →
      GoodNode e leaf → GoodView e st cs →
      GoodNode e out.1 ∧ GoodView e out.2.2.1 out.2.2.2)
    (self leaf : HistoryTreeNode D) (lcs : NodeLabel) (dl ds : Direction)
    (num : Nat) (st : Store D) (cs : Changeset D) (hashing : Bool)
    (out : HistoryTreeNode D × Nat × Store D × Changeset D)
    (h : insert_cases H rec self leaf lcs dl ds e num st cs hashing = .ok out)
    (hself : GoodNode e self) (hleaf : GoodNode e leaf)
    (hv : GoodView e st cs) :
    GoodNode e out.1 ∧ GoodView e out.2.2.1 out.2.2.2 := by
  rw [insert_cases.eq_def] at h
  revert h
  cases ds with
  | some dsv =>
    intro h
    simp only [] at h
    obtain ⟨pc, hpc, h⟩ := Res.bind_eq_ok h
    obtain ⟨hpg, hv1⟩ := tree_repr_get_good e st cs self.parent pc hpc hv
    obtain ⟨sdp, hsdp, h⟩ := Res.bind_eq_ok h
    have hnng : GoodNode e
        ({ HistoryTreeNode.new D lcs num pc.1.location NodeType.Interior with
          epochs :=
            (HistoryTreeNode.new D lcs num pc.1.location
              NodeType.Interior).epochs ++ [e] } : HistoryTreeNode D) := by
      refine ⟨?_, ?_⟩
      · simp [HistoryTreeNode.new]
      · intro x hx
        simp [HistoryTreeNode.new] at hx
        omega
    have hleaf2 : GoodNode e
        ({ leaf with parent := num } : HistoryTreeNode D) :=
      ⟨hleaf.1, hleaf.2⟩
    have hself2 : GoodNode e
        ({ self with parent := num } : HistoryTreeNode D) :=
      ⟨hself.1, hself.2⟩
    have hv4 : GoodView e st
        (tree_repr_set
          (tree_repr_set (tree_repr_set pc.2 num _) leaf.location
            { leaf with parent := num })
          self.location { self with parent := num }) :=
      goodview_set e st _ self.location _
        (goodview_set e st _ leaf.location _
          (goodview_set e st pc.2 num _ hv1 hnng) hleaf2) hself2
    obtain ⟨r1, hr1, h⟩ := Res.bind_eq_ok h
    obtain ⟨hr1g, hr1v⟩ := set_node_child_good H _ e dl _ st _ r1.1 r1.2.1
      r1.2.2 hr1 hnng hv4
    obtain ⟨r2, hr2, h⟩ := Res.bind_eq_ok h
    obtain ⟨hr2g, hr2v⟩ := set_node_child_good H r1.1 e (some dsv) _ r1.2.1
      r1.2.2 r2.1 r2.2.1 r2.2.2 hr2 hr1g hr1v
    obtain ⟨r3, hr3, h⟩ := Res.bind_eq_ok h
    obtain ⟨hr3g, hr3v⟩ := set_node_child_good H pc.1 e sdp r2.1 r2.2.1
      r2.2.2 r3.1 r3.2.1 r3.2.2 hr3 hpg hr2v
    obtain ⟨q, hq, h⟩ := Res.bind_eq_ok h
    have hqv : GoodView e q.1 q.2.1 ∧ GoodNode e q.2.2 := by
      revert hq
      cases hashing with
      | true =>
        intro hq
        rw [if_pos rfl] at hq
        obtain ⟨u1, hu1, hq⟩ := Res.bind_eq_ok hq
        have hu1v := update_hash_good H _ e r3.2.1 r3.2.2 u1.1 u1.2
          hu1 hleaf2 hr3v
        obtain ⟨u2, hu2, hq⟩ := Res.bind_eq_ok hq
        have hu2v := update_hash_good H _ e u1.1 u1.2 u2.1 u2.2
          hu2 hself2 hu1v
        obtain ⟨nc, hnc, hq⟩ := Res.bind_eq_ok hq
        obtain ⟨hncg, hncv⟩ := tree_repr_get_good e u2.1 u2.2 r2.1.location
          nc hnc hu2v
        obtain ⟨u3, hu3, hq⟩ := Res.bind_eq_ok hq
        have hu3v := update_hash_good H nc.1 e u2.1 nc.2 u3.1 u3.2
          hu3 hncg hncv
        injection hq with hq
        rw [← hq]
        exact ⟨hu3v, hncg⟩
      | false =>
        intro hq
        rw [if_neg (by decide)] at hq
        injection hq with hq
        rw [← hq]
        exact ⟨hr3v, hr2g⟩
    obtain ⟨sf, hsf, h⟩ := Res.bind_eq_ok h
    obtain ⟨hsfg, hsfv⟩ := tree_repr_get_good e q.1
      (tree_repr_set (tree_repr_set q.2.1 num q.2.2) r3.1.location r3.1)
      self.location sf hsf
      (goodview_set e q.1 _ r3.1.location r3.1
        (goodview_set e q.1 q.2.1 num q.2.2 hqv.1 hqv.2) hr3g)
    injection h with h
    rw [← h]
    exact ⟨hsfg, hsfv⟩
  | none =>
    intro h
    obtain ⟨le, hle, h⟩ := Res.bind_eq_ok h
    obtain ⟨cst, hcst, h⟩ := Res.bind_eq_ok h
    revert h
    cases cst.dummy_marker with
    | Dummy => intro h; cases h
    | Real =>
      intro h
      obtain ⟨cc, hcc, h⟩ := Res.bind_eq_ok h
      obtain ⟨hcg, hcv⟩ := tree_repr_get_good e st cs cst.location cc hcc hv
      obtain ⟨r, hr, h⟩ := Res.bind_eq_ok h
      obtain ⟨hrg, hrv⟩ := hrec cc.1 leaf num st cc.2 hashing r hr hcg hleaf hcv
      obtain ⟨q, hq, h⟩ := Res.bind_eq_ok h
      have hqv : GoodView e q.1 q.2 := by
        revert hq
        cases hashing with
        | true =>
          intro hq
          rw [if_pos rfl] at hq
          obtain ⟨sc, hsc, hq⟩ := Res.bind_eq_ok hq
          obtain ⟨hscg, hscv⟩ := tree_repr_get_good e r.2.2.1 r.2.2.2
            self.location sc hsc hrv
          obtain ⟨u, hu, hq⟩ := Res.bind_eq_ok hq
          have huv := update_hash_good H sc.1 e r.2.2.1 sc.2 u.1 u.2
            hu hscg hscv
          injection hq with hq
          rw [← hq]
          exact goodview_set e u.1 u.2 sc.1.location sc.1 huv hscg
        | false =>
          intro hq
          rw [if_neg (by decide)] at hq
          injection hq with hq
          rw [← hq]
          exact hrv
      obtain ⟨sf, hsf, h⟩ := Res.bind_eq_ok h
      obtain ⟨hsfg, hsfv⟩ := tree_repr_get_good e q.1 q.2 self.location sf
        hsf hqv
      injection h with h
      rw [← h]
      exact ⟨hsfg, hsfv⟩

theorem insert_helper_good {D : Type} [DecidableEq D] (H : AkdHasher D) :
    ∀ (fuel : Nat) (self leaf : HistoryTreeNode D) (e num : Nat)
      (st : Store D) (cs : Changeset D) (hashing : Bool)
      (out : HistoryTreeNode D × Nat × Store D × Changeset D),
      insert_single_leaf_helper H fuel self leaf e num st cs hashing =
        .ok out →
      GoodNode e self → GoodNode e leaf → GoodView e st cs →
      GoodNode e out.1 ∧ GoodView e out.2.2.1 out.2.2.2 := by
  intro fuel
  induction fuel with
  | zero =>
    intro self leaf e num st cs hashing out h _ _ _
    simp only [insert_single_leaf_helper] at h
    cases h
  | succ fuel ih =>
    intro self leaf e num st cs hashing out h hs hl hv
    rw [insert_single_leaf_helper] at h
    revert h
    cases hroot : self.is_root with
    | false =>
      intro h
      rw [if_neg (by decide)] at h
      exact insert_cases_good H _ e
        (fun s l n st2 cs2 hg out2 h' a b c => ih s l e n st2 cs2 hg out2 h' a b c)
        self leaf _ _ _ num st cs hashing out h hs hl hv
    | true =>
      intro h
      rw [if_pos rfl] at h
      simp only [] at h
      obtain ⟨le, hle, h⟩ := Res.bind_eq_ok h
      obtain ⟨cstate, hcs2, h⟩ := Res.bind_eq_ok h
      have hleaf1 : GoodNode e ({ leaf with location := num } :
          HistoryTreeNode D) := ⟨hl.1, hl.2⟩
      have hv1 : GoodView e st
          (tree_repr_set cs num { leaf with location := num }) :=
        goodview_set e st cs num _ hv hleaf1
      by_cases hdum : cstate.dummy_marker = .Dummy
      · rw [if_pos hdum] at h
        have hleaf2 : GoodNode e
            ({ label := leaf.label
               location := num
               epochs := leaf.epochs
               parent := self.location
               node_type := leaf.node_type } :
              HistoryTreeNode D) := ⟨hl.1, hl.2⟩
        obtain ⟨r, hr, h⟩ := Res.bind_eq_ok h
        obtain ⟨hrg, hrv⟩ := set_node_child_good H self e _ _ st
          (tree_repr_set cs num { leaf with location := num })
          r.1 r.2.1 r.2.2 hr hs hv1
        have hv3 : GoodView e r.2.1
            (tree_repr_set (tree_repr_set r.2.2 r.1.location r.1) num
              { label := leaf.label
                location := num
                epochs := leaf.epochs
                parent := self.location
                node_type := leaf.node_type }) :=
          goodview_set e r.2.1 _ _ _
            (goodview_set e r.2.1 r.2.2 r.1.location r.1 hrv hrg) hleaf2
        obtain ⟨q, hq, h⟩ := Res.bind_eq_ok h
        have hqv : GoodView e q.1 q.2 := by
          revert hq
          cases hashing with
          | true =>
            intro hq
            rw [if_pos rfl] at hq
            obtain ⟨u1, hu1, hq⟩ := Res.bind_eq_ok hq
            have hu1v := update_hash_good H _ e r.2.1 _ u1.1 u1.2 hu1
              hleaf2 hv3
            obtain ⟨nc, hnc, hq⟩ := Res.bind_eq_ok hq
            obtain ⟨hncg, hncv⟩ := tree_repr_get_good e u1.1 u1.2
              r.1.location nc hnc hu1v
            obtain ⟨u2, hu2, hq⟩ := Res.bind_eq_ok hq
            have hu2v := update_hash_good H nc.1 e u1.1 nc.2 u2.1 u2.2 hu2
              hncg hncv
            injection hq with hq
            rw [← hq]
            exact hu2v
          | false =>
            intro hq
            rw [if_neg (by decide)] at hq
            injection hq with hq
            rw [← hq]
            exact hv3
        obtain ⟨sf, hsf, h⟩ := Res.bind_eq_ok h
        obtain ⟨hsfg, hsfv⟩ := tree_repr_get_good e q.1 q.2 r.1.location sf
          hsf hqv
        injection h with h
        rw [← h]
        exact ⟨hsfg, hsfv⟩
      · rw [if_neg hdum] at h
        exact insert_cases_good H _ e
          (fun s l n st2 cs2 hg out2 h' a b c =>
            ih s l e n st2 cs2 hg out2 h' a b c)
          self { leaf with location := num } _ _ _ (num + 1) st
          (tree_repr_set cs num { leaf with location := num }) hashing out h
          hs hleaf1 hv1

/-- **C7.** When every node visible before an insertion has a strictly
increasing epochs list bounded by the insertion epoch `e` (insertions happen
at non-decreasing epochs), every node visible after a successful
`insert_single_leaf_helper` call still has a strictly increasing epochs list
bounded by `e` — in particular each touched node records at most one entry
for the new epoch (`set_child_without_hash` pushes `e` only when it differs
from the node's current latest epoch). -/
theorem claim_C7 {D : Type} [DecidableEq D] (H : AkdHasher D) (fuel : Nat)
    (self leaf : HistoryTreeNode D) (e num : Nat) (st : Store D)
    (cs : Changeset D) (hashing : Bool)
    (out : HistoryTreeNode D × Nat × Store D × Changeset D)
    (hs : GoodNode e self) (hl : GoodNode e leaf) (hv : GoodView e st cs)
    (h : insert_single_leaf_helper H fuel self leaf e num st cs hashing =
      .ok out) :
    (GoodNode e out.1 ∧ GoodView e out.2.2.1 out.2.2.2) ∧
    (∀ loc m, alookup out.2.2.2 loc = some m →
      List.Chain' (· < ·) m.epochs ∧ m.epochs.count e ≤ 1) := by
  have hmain := insert_helper_good H fuel self leaf e num st cs hashing out
    h hs hl hv
  refine ⟨hmain, fun loc m hm => ?_⟩
  have hg := hmain.2.1 loc m hm
  refine ⟨hg.1, ?_⟩
  have hpw : List.Pairwise (· < ·) m.epochs :=
    List.chain'_iff_pairwise.mp hg.1
  have hnd : m.epochs.Nodup := hpw.imp Nat.ne_of_lt
  exact List.nodup_iff_count_le_one.mp hnd e

/-- Witness for C7: a concrete insertion of leaf `B` (a split below the
root) keeps every changeset node's epochs strictly increasing. -/
theorem claim_C7_witness :
    (GoodNode 2 rootNode ∧ GoodNode 2 leafB ∧ GoodView 2 demoStore [] ∧
      insert_single_leaf_helper natHasher 3 rootNode leafB 2 2 demoStore []
          false =
        .ok (okOf
          (insert_single_leaf_helper natHasher 3 rootNode leafB 2 2 demoStore
            [] false) (rootNode, 0, demoStore, []))) ∧
    ((GoodNode 2 (okOf (insert_single_leaf_helper natHasher 3 rootNode leafB
          2 2 demoStore [] false) (rootNode, 0, demoStore, [])).1 ∧
      GoodView 2 (okOf (insert_single_leaf_helper natHasher 3 rootNode leafB
          2 2 demoStore [] false) (rootNode, 0, demoStore, [])).2.2.1
        (okOf (insert_single_leaf_helper natHasher 3 rootNode leafB
          2 2 demoStore [] false) (rootNode, 0, demoStore, [])).2.2.2) ∧
      ∀ loc m, alookup (okOf (insert_single_leaf_helper natHasher 3 rootNode
          leafB 2 2 demoStore [] false)
          (rootNode, 0, demoStore, [])).2.2.2 loc = some m →
        List.Chain' (· < ·) m.epochs ∧ m.epochs.count 2 ≤ 1) := by
  have gsingle : ∀ (a e : Nat) (n : HistoryTreeNode Nat), n.epochs = [a] →
      a ≤ e → GoodNode e n := by
    intro a e n hne ha
    refine ⟨?_, ?_⟩
    · rw [hne]
      exact List.chain'_singleton _
    · intro x hx
      rw [hne] at hx
      simp at hx
      omega
  have hview : GoodView 2 demoStore [] := by
    constructor
    · intro loc n hn
      cases hn
    · intro loc n hn
      have hmem := alookup_mem _ _ _ hn
      have hmem2 : (loc, n) ∈ [(0, rootNode), (1, nodeA)] := hmem
      rcases List.mem_cons.mp hmem2 with h1 | h1
      · obtain ⟨-, rfl⟩ := Prod.mk.inj h1
        exact gsingle 1 2 rootNode rfl (by omega)
      · rcases List.mem_cons.mp h1 with h2 | h2
        · obtain ⟨-, rfl⟩ := Prod.mk.inj h2
          exact gsingle 1 2 nodeA rfl (by omega)
        · cases h2
  have hs : GoodNode 2 rootNode := gsingle 1 2 rootNode rfl (by omega)
  have hl : GoodNode 2 leafB := gsingle 2 2 leafB rfl (by omega)
  have hrun : insert_single_leaf_helper natHasher 3 rootNode leafB 2 2
      demoStore [] false =
      .ok (okOf (insert_single_leaf_helper natHasher 3 rootNode leafB 2 2
        demoStore [] false) (rootNode, 0, demoStore, [])) := by decide
  exact ⟨⟨hs, hl, hview, hrun⟩,
    claim_C7 natHasher 3 rootNode leafB 2 2 demoStore [] false _ hs hl hview
      hrun⟩

/-! ### The split case of insertion (C6) -/

theorem setChild_get_ne {D : Type} (s : HistoryNodeState D) (d d' : Nat)
    (c : HistoryChildState D) (hd : d < 2) (hd' : d' < 2) (hne : d ≠ d') :
    (s.setChild d' c).get_child_state_in_dir d = s.get_child_state_in_dir d := by
  unfold HistoryNodeState.setChild HistoryNodeState.get_child_state_in_dir
  by_cases h0 : d' = 0
  · subst h0
    rw [if_pos rfl, if_neg hne]
    rw [if_neg hne]
  · rw [if_neg h0]
    have hd0 : d = 0 := by omega
    subst hd0
    rw [if_pos rfl, if_pos rfl]

/-- In `lcpLenAux`, the returned index either witnesses a differing bit (when
still within both labels) or exhausted the fuel. -/
theorem lcpLenAux_spec (a b : NodeLabel) :
    ∀ (fuel i : Nat),
      (NodeLabel.lcpLenAux a b i fuel < min a.len b.len →
        a.getBitAt (NodeLabel.lcpLenAux a b i fuel) ≠
          b.getBitAt (NodeLabel.lcpLenAux a b i fuel)) ∨
      NodeLabel.lcpLenAux a b i fuel = i + fuel := by
  intro fuel
  induction fuel with
  | zero => intro i; exact Or.inr rfl
  | succ fuel ih =>
    intro i
    rw [NodeLabel.lcpLenAux]
    by_cases hc : i < min a.len b.len ∧ a.getBitAt i = b.getBitAt i
    · rw [if_pos hc]
      rcases ih (i + 1) with h | h
      · exact Or.inl h
      · exact Or.inr (by omega)
    · rw [if_neg hc]
      refine Or.inl fun hlt => ?_
      intro heq
      exact hc ⟨hlt, heq⟩

/-- One direction extracted from `dirAfter`: the guards are false and the
direction is the bit after the prefix. -/
theorem dirAfter_some (lcp other : NodeLabel) (d : Nat)
    (h : NodeLabel.dirAfter lcp other = some d) :
    lcp.len < other.len ∧ d = other.getBitAt lcp.len := by
  rw [NodeLabel.dirAfter] at h
  by_cases h1 : lcp.len ≥ other.len
  · rw [if_pos h1] at h
    cases h
  · rw [if_neg h1] at h
    by_cases h2 : other.prefixAt lcp.len ≠ lcp
    · rw [if_pos h2] at h
      cases h
    · rw [if_neg h2] at h
      injection h with h
      exact ⟨by omega, h.symm⟩

/-- When `get_longest_common_prefix_and_dirs` reports a direction for both
labels, the two directions are distinct bits. -/
theorem dirs_distinct (a b : NodeLabel) (lcs : NodeLabel) (d1 d2 : Nat)
    (h : a.get_longest_common_prefix_and_dirs b = (lcs, some d1, some d2)) :
    d1 < 2 ∧ d2 < 2 ∧ d1 ≠ d2 := by
  rw [NodeLabel.get_longest_common_prefix_and_dirs] at h
  obtain ⟨hlcs, hrest⟩ := Prod.mk.inj h
  obtain ⟨hdb, hda⟩ := Prod.mk.inj hrest
  obtain ⟨hlb, hd1⟩ := dirAfter_some _ _ _ hdb
  obtain ⟨hla, hd2⟩ := dirAfter_some _ _ _ hda
  have hlen : (a.prefixAt (NodeLabel.lcpLen a b)).len = NodeLabel.lcpLen a b :=
    rfl
  rw [hlen] at hlb hla hd1 hd2
  have hk2 : NodeLabel.lcpLen a b =
      NodeLabel.lcpLenAux a b 0 (min a.len b.len) := rfl
  have hbits : a.getBitAt (NodeLabel.lcpLen a b) ≠
      b.getBitAt (NodeLabel.lcpLen a b) := by
    rw [hk2] at hla hlb ⊢
    rcases lcpLenAux_spec a b (min a.len b.len) 0 with hs | hs
    · exact hs (by omega)
    · exact absurd hs (by omega)
  refine ⟨?_, ?_, ?_⟩
  · rw [hd1]
    exact Nat.mod_lt _ (by norm_num)
  · rw [hd2]
    exact Nat.mod_lt _ (by norm_num)
  · rw [hd1, hd2]
    exact fun hc => hbits (hc ▸ rfl)

/-- Effect summary of `set_child_without_hash` at direction `d`: the node
record keeps its label, location, parent and type; node storage is
untouched; only the changeset slot at the node's own location and the state
at `(label, epoch)` can change, and that state ends up as some base state
with `child_states[d]` set to the new child. -/
theorem set_child_effect {D : Type} [DecidableEq D] (H : AkdHasher D)
    (n : HistoryTreeNode D) (e : Nat)
    (c : Direction × HistoryChildState D) (st : Store D) (cs : Changeset D)
    (n' : HistoryTreeNode D) (st' : Store D) (cs' : Changeset D) (d : Nat)
    (hc : c.1 = some d)
    (h : set_child_without_hash H n e c st cs = .ok (n', st', cs')) :
    (n'.label = n.label ∧ n'.location = n.location ∧ n'.parent = n.parent ∧
      n'.node_type = n.node_type) ∧
    st'.nodes = st.nodes ∧
    (∀ loc, loc ≠ n.location → alookup cs' loc = alookup cs loc) ∧
    (∀ key, key ≠ (n.label, e) →
      alookup st'.states key = alookup st.states key) ∧
    (∀ s0 : HistoryNodeState D, alookup st.states (n.label, e) = some s0 →
      alookup st'.states (n.label, e) = some (s0.setChild d c.2)) ∧
    (∃ s0 : HistoryNodeState D,
      alookup st'.states (n.label, e) = some (s0.setChild d c.2)) := by
  rw [set_child_without_hash, hc] at h
  revert h
  cases h1 : get_state_map n e st with
  | ok s =>
    intro h
    injection h with h
    obtain ⟨hna, hrest⟩ := Prod.mk.inj h
    obtain ⟨hsta, hcsa⟩ := Prod.mk.inj hrest
    rw [get_state_map] at h1
    have hlook : alookup st.states (n.label, e) = some s := by
      revert h1
      cases hv : alookup st.states (n.label, e) with
      | some s1 => intro h1; injection h1 with h1; rw [h1]
      | none => intro h1; cases h1
    refine ⟨?_, ?_, ?_, ?_, ?_, ?_⟩
    · rw [← hna]
      exact ⟨rfl, rfl, rfl, rfl⟩
    · rw [← hsta]
      rfl
    · intro loc _
      rw [← hcsa]
    · intro key hkey
      rw [← hsta]
      simp only [set_state_map]
      rw [alookup_aset_ne _ _ _ _ hkey]
    · intro s0 hs0
      rw [← hsta]
      simp only [set_state_map]
      rw [alookup_aset_same]
      rw [hlook] at hs0
      injection hs0 with hs0
      rw [hs0]
    · refine ⟨s, ?_⟩
      rw [← hsta]
      simp only [set_state_map]
      rw [alookup_aset_same]
  | crash => intro h; cases h
  | err er =>
    intro h
    obtain ⟨latest0, hl0, h⟩ := Res.bind_eq_ok h
    obtain ⟨base, hbase, h⟩ := Res.bind_eq_ok h
    simp only [hl0] at h
    have hnone : alookup st.states (n.label, e) = none := by
      rw [get_state_map] at h1
      revert h1
      cases hv : alookup st.states (n.label, e) with
      | some s1 => intro h1; cases h1
      | none => intro _; rfl
    revert h
    generalize hn2 : (if latest0 ≠ e then
      ({ n with epochs := n.epochs ++ [e] } : HistoryTreeNode D) else n) = n2
    intro h
    have hlab : n2.label = n.label := by
      rw [← hn2]
      by_cases hne : latest0 ≠ e
      · rw [if_pos hne]
      · rw [if_neg hne]
    have hloc2 : n2.location = n.location := by
      rw [← hn2]
      by_cases hne : latest0 ≠ e
      · rw [if_pos hne]
      · rw [if_neg hne]
    have hpar : n2.parent = n.parent := by
      rw [← hn2]
      by_cases hne : latest0 ≠ e
      · rw [if_pos hne]
      · rw [if_neg hne]
    have hty : n2.node_type = n.node_type := by
      rw [← hn2]
      by_cases hne : latest0 ≠ e
      · rw [if_pos hne]
      · rw [if_neg hne]
    have hgm : get_state_map n2 e (set_state_map n e base st) = .ok base := by
      rw [get_state_map]
      simp only [set_state_map]
      rw [show ((n2.label, e) : NodeLabel × Nat) = (n.label, e) by rw [hlab]]
      rw [alookup_aset_same]
    rw [hgm] at h
    injection h with h
    obtain ⟨hna, hrest⟩ := Prod.mk.inj h
    obtain ⟨hsta, hcsa⟩ := Prod.mk.inj hrest
    refine ⟨?_, ?_, ?_, ?_, ?_, ?_⟩
    · rw [← hna]
      exact ⟨hlab, hloc2, hpar, hty⟩
    · rw [← hsta]
      rfl
    · intro loc hl
      rw [← hcsa]
      simp only [tree_repr_set]
      rw [hloc2, alookup_aset_ne _ _ _ _ hl]
    · intro key hkey
      rw [← hsta]
      simp only [set_state_map]
      rw [show ((n2.label, e) : NodeLabel × Nat) = (n.label, e) by rw [hlab]]
      rw [alookup_aset_ne _ _ _ _ hkey, alookup_aset_ne _ _ _ _ hkey]
    · intro s0 hs0
      rw [hnone] at hs0
      cases hs0
    · refine ⟨base, ?_⟩
      rw [← hsta]
      simp only [set_state_map]
      rw [show ((n2.label, e) : NodeLabel × Nat) = (n.label, e) by rw [hlab]]
      rw [alookup_aset_same]

/-- A successful `to_node_unhashed_child_state` yields a `Real` pointer
carrying the node's own label and location. -/
theorem to_node_unhashed_fields {D : Type} [DecidableEq D] (H : AkdHasher D)
    (n : HistoryTreeNode D) (st : Store D) (c : HistoryChildState D)
    (h : to_node_unhashed_child_state H n st = .ok c) :
    c.label = n.label ∧ c.location = n.location ∧
      c.dummy_marker = DummyChildState.Real := by
  rw [to_node_unhashed_child_state] at h
  obtain ⟨v, hv, h⟩ := Res.bind_eq_ok h
  obtain ⟨le, hle, h⟩ := Res.bind_eq_ok h
  injection h with h
  rw [← h]
  exact ⟨rfl, rfl, rfl⟩

/-- Effect summary of `set_node_child_without_hash` at a definite direction:
the node keeps its identity fields, stored nodes are untouched, the changeset
changes only at the node's own location, and the state map changes only at
`(n.label, e)`, where the written state is the previous one (when present)
with the packaged child — carrying `c`'s label and location — at slot `dv`. -/
theorem set_node_child_effect {D : Type} [DecidableEq D] (H : AkdHasher D)
    (n : HistoryTreeNode D) (e : Nat) (dv : Nat)
    (c : HistoryTreeNode D) (st : Store D) (cs : Changeset D)
    (n' : HistoryTreeNode D) (st' : Store D) (cs' : Changeset D)
    (h : set_node_child_without_hash H n e (some dv) c st cs =
      .ok (n', st', cs')) :
    (n'.label = n.label ∧ n'.location = n.location ∧ n'.parent = n.parent ∧
      n'.node_type = n.node_type) ∧
    st'.nodes = st.nodes ∧
    (∀ loc, loc ≠ n.location → alookup cs' loc = alookup cs loc) ∧
    (∀ key, key ≠ (n.label, e) →
      alookup st'.states key = alookup st.states key) ∧
    (∃ cst : HistoryChildState D,
      cst.label = c.label ∧ cst.location = c.location ∧
      cst.dummy_marker = DummyChildState.Real ∧
      (∀ s0 : HistoryNodeState D, alookup st.states (n.label, e) = some s0 →
        alookup st'.states (n.label, e) = some (s0.setChild dv cst)) ∧
      (∃ s0 : HistoryNodeState D,
        alookup st'.states (n.label, e) = some (s0.setChild dv cst))) := by
  rw [set_node_child_without_hash] at h
  obtain ⟨cst, hcst, h⟩ := Res.bind_eq_ok h
  obtain ⟨h1, h2, h3, h4, h5, h6⟩ :=
    set_child_effect H n e (some dv, cst) st cs n' st' cs' dv rfl h
  obtain ⟨hlab, hloc, hdm⟩ := to_node_unhashed_fields H c st cst hcst
  exact ⟨h1, h2, h3, h4, cst, hlab, hloc, hdm, h5, h6⟩

/-- C6: in the split case of `insert_single_leaf_helper` (`dir_self` is some
direction — run without hashing, the mode batch insertion uses), a new
interior node labelled by the longest common prefix is allocated at the next
free location with `self`'s former parent as its parent; the changeset holds
the new leaf and `self` reparented to it, the parent's state at `epoch` points
at the new interior at the direction that pointed to `self`, and the new
interior's state at `epoch` has the leaf at `dir_leaf` and `self` at
`dir_self`. -/
theorem claim_C6 {D : Type} [DecidableEq D] (H : AkdHasher D) (fuel : Nat)
    (self new_leaf p : HistoryTreeNode D) (lcs : NodeLabel)
    (dlv dsv sdpv : Nat) (epoch num : Nat) (st : Store D) (cs cs1 : Changeset D)
    (out : HistoryTreeNode D × Nat × Store D × Changeset D)
    (hroot : self.is_root = false)
    (hdirs : self.label.get_longest_common_prefix_and_dirs new_leaf.label =
      (lcs, some dlv, some dsv))
    (hp : tree_repr_get st cs self.parent = .ok (p, cs1))
    (hsdp : get_direction_at_ep p self epoch st = .ok (some sdpv))
    (hlnum : new_leaf.location ≠ num) (hsnum : self.location ≠ num)
    (hpnum : p.location ≠ num) (hpl : p.location ≠ new_leaf.location)
    (hps : p.location ≠ self.location) (hls : new_leaf.location ≠ self.location)
    (hplbl : p.label ≠ lcs)
    (hrun : insert_single_leaf_without_hash H (fuel + 1) self new_leaf epoch
      num st cs = .ok out) :
    out.2.1 = num + 1 ∧
    (∃ nn : HistoryTreeNode D, alookup out.2.2.2 num = some nn ∧
      nn.label = lcs ∧ nn.location = num ∧ nn.parent = p.location ∧
      nn.node_type = NodeType.Interior) ∧
    alookup out.2.2.2 new_leaf.location =
      some ({ new_leaf with parent := num } : HistoryTreeNode D) ∧
    alookup out.2.2.2 self.location =
      some ({ self with parent := num } : HistoryTreeNode D) ∧
    out.1 = ({ self with parent := num } : HistoryTreeNode D) ∧
    (∃ ps : HistoryNodeState D,
      alookup out.2.2.1.states (p.label, epoch) = some ps ∧
      (ps.get_child_state_in_dir sdpv).label = lcs ∧
      (ps.get_child_state_in_dir sdpv).location = num ∧
      (ps.get_child_state_in_dir sdpv).dummy_marker = DummyChildState.Real) ∧
    (∃ ns : HistoryNodeState D,
      alookup out.2.2.1.states (lcs, epoch) = some ns ∧
      (ns.get_child_state_in_dir dlv).label = new_leaf.label ∧
      (ns.get_child_state_in_dir dlv).location = new_leaf.location ∧
      (ns.get_child_state_in_dir dsv).label = self.label ∧
      (ns.get_child_state_in_dir dsv).location = self.location) := by
  obtain ⟨hdl2, hds2, hdlne⟩ := dirs_distinct _ _ _ _ _ hdirs
  have hstep : insert_single_leaf_without_hash H (fuel + 1) self new_leaf
      epoch num st cs =
      insert_cases H (insert_single_leaf_helper H fuel) self new_leaf lcs
        (some dlv) (some dsv) epoch num st cs false := by
    rw [insert_single_leaf_without_hash, insert_single_leaf_helper]
    simp only [hdirs, hroot]
    rfl
  rw [hstep, insert_cases] at hrun
  rw [hp, Res.bind_ok] at hrun
  simp only [] at hrun
  rw [hsdp, Res.bind_ok] at hrun
  simp only [HistoryTreeNode.new, List.nil_append, tree_repr_set,
    Bool.false_eq_true, if_false] at hrun
  obtain ⟨r1, hr1, hrun⟩ := Res.bind_eq_ok hrun
  obtain ⟨r2, hr2, hrun⟩ := Res.bind_eq_ok hrun
  obtain ⟨r3, hr3, hrun⟩ := Res.bind_eq_ok hrun
  obtain ⟨q, hq, hrun⟩ := Res.bind_eq_ok hrun
  injection hq with hq
  subst hq
  obtain ⟨sf, hsf, hrun⟩ := Res.bind_eq_ok hrun
  injection hrun with hrun
  subst hrun
  simp only [] at hsf
  obtain ⟨⟨h1lab, h1loc, h1par, h1ty⟩, h1nodes, h1cs, h1pres,
    cst1, c1lab, c1loc, c1dm, h1all, s0, hs0⟩ :=
    set_node_child_effect H _ epoch dlv _ st _ r1.1 r1.2.1 r1.2.2 hr1
  obtain ⟨⟨h2lab, h2loc, h2par, h2ty⟩, h2nodes, h2cs, h2pres,
    cst2, c2lab, c2loc, c2dm, h2all, s1, hs1⟩ :=
    set_node_child_effect H r1.1 epoch dsv _ r1.2.1 r1.2.2 r2.1 r2.2.1
      r2.2.2 hr2
  obtain ⟨⟨h3lab, h3loc, h3par, h3ty⟩, h3nodes, h3cs, h3pres,
    cst3, c3lab, c3loc, c3dm, h3all, ps0, hps0⟩ :=
    set_node_child_effect H p epoch sdpv r2.1 r2.2.1 r2.2.2 r3.1 r3.2.1
      r3.2.2 hr3
  have h1lab' : r1.1.label = lcs := h1lab
  have h1loc' : r1.1.location = num := h1loc
  have h1par' : r1.1.parent = p.location := h1par
  have h1ty' : r1.1.node_type = NodeType.Interior := h1ty
  have c1lab' : cst1.label = new_leaf.label := c1lab
  have c1loc' : cst1.location = new_leaf.location := c1loc
  have c2lab' : cst2.label = self.label := c2lab
  have c2loc' : cst2.location = self.location := c2loc
  have hs0' : alookup r1.2.1.states (lcs, epoch) =
      some (s0.setChild dlv cst1) := hs0
  rw [h1lab'] at h2all
  have hchain : alookup r2.2.1.states (lcs, epoch) =
      some ((s0.setChild dlv cst1).setChild dsv cst2) := h2all _ hs0'
  have hkey_ne : ((lcs, epoch) : NodeLabel × Nat) ≠ (p.label, epoch) := by
    intro hEq
    exact hplbl ((Prod.mk.inj hEq).1).symm
  have hfin_state : alookup r3.2.1.states (lcs, epoch) =
      some ((s0.setChild dlv cst1).setChild dsv cst2) :=
    (h3pres _ hkey_ne).trans hchain
  have hnum_ne3 : num ≠ r3.1.location := by
    rw [h3loc]
    exact Ne.symm hpnum
  have hfincs_num : alookup (aset (aset r3.2.2 num r2.1) r3.1.location r3.1)
      num = some r2.1 := by
    rw [alookup_aset_ne _ _ _ _ hnum_ne3, alookup_aset_same]
  have hl_ne3 : new_leaf.location ≠ r3.1.location := by
    rw [h3loc]
    exact Ne.symm hpl
  have hl_ne1 : new_leaf.location ≠ r1.1.location := by
    rw [h1loc']
    exact hlnum
  have hfincs_leaf :
      alookup (aset (aset r3.2.2 num r2.1) r3.1.location r3.1)
        new_leaf.location =
      some ({ new_leaf with parent := num } : HistoryTreeNode D) := by
    rw [alookup_aset_ne _ _ _ _ hl_ne3, alookup_aset_ne _ _ _ _ hlnum]
    rw [h3cs _ (Ne.symm hpl), h2cs _ hl_ne1, h1cs _ hlnum]
    rw [alookup_aset_ne _ _ _ _ hls, alookup_aset_same]
  have hs_ne3 : self.location ≠ r3.1.location := by
    rw [h3loc]
    exact Ne.symm hps
  have hs_ne1 : self.location ≠ r1.1.location := by
    rw [h1loc']
    exact hsnum
  have hfincs_self :
      alookup (aset (aset r3.2.2 num r2.1) r3.1.location r3.1)
        self.location =
      some ({ self with parent := num } : HistoryTreeNode D) := by
    rw [alookup_aset_ne _ _ _ _ hs_ne3, alookup_aset_ne _ _ _ _ hsnum]
    rw [h3cs _ (Ne.symm hps), h2cs _ hs_ne1, h1cs _ hsnum]
    rw [alookup_aset_same]
  rw [tree_repr_get, hfincs_self] at hsf
  injection hsf with hsf
  subst hsf
  refine ⟨rfl, ⟨r2.1, hfincs_num, ?_, ?_, ?_, ?_⟩, hfincs_leaf, hfincs_self,
    rfl, ⟨ps0.setChild sdpv cst3, hps0, ?_, ?_, ?_⟩,
    ⟨(s0.setChild dlv cst1).setChild dsv cst2, hfin_state, ?_, ?_, ?_, ?_⟩⟩
  · exact h2lab.trans h1lab'
  · exact h2loc.trans h1loc'
  · exact h2par.trans h1par'
  · exact h2ty.trans h1ty'
  · rw [setChild_get]
    exact c3lab.trans (h2lab.trans h1lab')
  · rw [setChild_get]
    exact c3loc.trans (h2loc.trans h1loc')
  · rw [setChild_get]
    exact c3dm
  · rw [setChild_get_ne _ dlv dsv cst2 hdl2 hds2 hdlne, setChild_get]
    exact c1lab'
  · rw [setChild_get_ne _ dlv dsv cst2 hdl2 hds2 hdlne, setChild_get]
    exact c1loc'
  · rw [setChild_get]
    exact c2lab'
  · rw [setChild_get]
    exact c2loc'

/-- Witness for C6: splitting leaf `A` (label 1000₂) by inserting leaf `B`
(label 1001₂) at epoch 2 allocates the interior node 100₂ at location 3,
reparents both leaves to it and rewires the root's child pointer. -/
theorem claim_C6_witness :
    (nodeA.is_root = false ∧
      nodeA.label.get_longest_common_prefix_and_dirs leafB.label =
        (⟨4, 3⟩, some 1, some 0) ∧
      tree_repr_get demoStore [] nodeA.parent =
        .ok (rootNode, aset [] 0 rootNode) ∧
      get_direction_at_ep rootNode nodeA 2 demoStore = .ok (some 1) ∧
      splitRun = .ok splitOut) ∧
    (splitOut.2.1 = 3 + 1 ∧
      (∃ nn : HistoryTreeNode Nat, alookup splitOut.2.2.2 3 = some nn ∧
        nn.label = ⟨4, 3⟩ ∧ nn.location = 3 ∧ nn.parent = rootNode.location ∧
        nn.node_type = NodeType.Interior) ∧
      alookup splitOut.2.2.2 leafB.location =
        some ({ leafB with parent := 3 } : HistoryTreeNode Nat) ∧
      alookup splitOut.2.2.2 nodeA.location =
        some ({ nodeA with parent := 3 } : HistoryTreeNode Nat) ∧
      splitOut.1 = ({ nodeA with parent := 3 } : HistoryTreeNode Nat) ∧
      (∃ ps : HistoryNodeState Nat,
        alookup splitOut.2.2.1.states (rootNode.label, 2) = some ps ∧
        (ps.get_child_state_in_dir 1).label = ⟨4, 3⟩ ∧
        (ps.get_child_state_in_dir 1).location = 3 ∧
        (ps.get_child_state_in_dir 1).dummy_marker = DummyChildState.Real) ∧
      (∃ ns : HistoryNodeState Nat,
        alookup splitOut.2.2.1.states (⟨4, 3⟩, 2) = some ns ∧
        (ns.get_child_state_in_dir 1).label = leafB.label ∧
        (ns.get_child_state_in_dir 1).location = leafB.location ∧
        (ns.get_child_state_in_dir 0).label = nodeA.label ∧
        (ns.get_child_state_in_dir 0).location = nodeA.location)) :=
  ⟨⟨by decide, by decide, by decide, by decide, by decide⟩,
    claim_C6 natHasher 0 nodeA leafB rootNode ⟨4, 3⟩ 1 0 1 2 3 demoStore []
      (aset [] 0 rootNode) splitOut (by decide) (by decide) (by decide)
      (by decide) (by decide) (by decide) (by decide) (by decide) (by decide)
      (by decide) (by decide) (by decide)⟩

end Akd
